import Mathlib

/-!
Storefront page script (`static/js/script.js`)

A shallow embedding of the page script and the properties of its handlers.

Conventions of the embedding:

* a JavaScript string is the list of its UTF-16 code units (`JSString`);
* a JavaScript number that the script can produce is an integer-valued double,
  an infinity, a negative zero or NaN (`JSNum`); arithmetic rounds to the
  nearest double, ties to even, with integer arithmetic only;
* code that can throw returns `Except JSError`;
* the document is represented by the elements the script selects, each one a
  separate record (the `.main` container, the `.cart-count` element, the
  `#quantity` field, a cart row, a form's inputs, the two password fields).
-/

namespace Storefront

/-! ## Strings -/

/-- A JavaScript string: the list of its UTF-16 code units. -/
abbrev JSString := List Nat

/-- The exceptions the script can raise. -/
inductive JSError where
  | uriError
  | typeError
  deriving DecidableEq, Repr

deriving instance DecidableEq for Except

/-- UTF-16 encoding of one code point (`UTF16EncodeCodePoint`). -/
def utf16EncodeCodePoint (v : Nat) : JSString :=
  if v < 65536 then [v]
  else [55296 + (v - 65536) / 1024, 56320 + (v - 65536) % 1024]

/-- The code units of a string literal. -/
def utf16 (s : String) : JSString :=
  s.toList.flatMap (fun ch => utf16EncodeCodePoint ch.toNat)

/-- Code units removed by `String.prototype.trim`: the `WhiteSpace` and
`LineTerminator` productions. -/
def isWhiteSpace (c : Nat) : Bool :=
  c == 9 || c == 10 || c == 11 || c == 12 || c == 13 || c == 32 || c == 160 ||
  c == 5760 || (8192 ≤ c && c ≤ 8202) || c == 8232 || c == 8233 || c == 8239 ||
  c == 8287 || c == 12288 || c == 65279

/-- Leading white space removed (`TrimString` with `start`). -/
def trimStart (s : JSString) : JSString := s.dropWhile isWhiteSpace

/-- The method `String.prototype.trim`: white space removed at both ends. -/
def trim (s : JSString) : JSString :=
  ((trimStart s).reverse.dropWhile isWhiteSpace).reverse

/-- The method `String.prototype.substring(start, end)`: both ends are clamped to the
length and swapped when out of order. -/
def substring (s : JSString) (start stop : Nat) : JSString :=
  let a := min start s.length
  let b := min stop s.length
  (s.take (max a b)).drop (min a b)

/-- The method `String.prototype.substring(start)`: the end defaults to the length. -/
def substringFrom (s : JSString) (start : Nat) : JSString :=
  substring s start s.length

/-- The method `String.prototype.split(sep)` for a one-unit separator: the pieces between
the separators; an empty string gives one empty piece. -/
def split (sep : Nat) : JSString → List JSString
  | [] => [[]]
  | c :: rest =>
    if c = sep then [] :: split sep rest
    else
      match split sep rest with
      | [] => [[c]]
      | piece :: pieces => (c :: piece) :: pieces

/-! ## `decodeURIComponent` -/

/-- Value of a hexadecimal digit given as a code unit. -/
def hexDigit (c : Nat) : Option Nat :=
  if 48 ≤ c ∧ c ≤ 57 then some (c - 48)
  else if 65 ≤ c ∧ c ≤ 70 then some (c - 55)
  else if 97 ≤ c ∧ c ≤ 102 then some (c - 87)
  else none

/-- The operation `ParseHexOctet`: the byte written by two hexadecimal digits. -/
def parseHexOctet (h l : Nat) : Option Nat :=
  match hexDigit h, hexDigit l with
  | some a, some b => some (16 * a + b)
  | _, _ => none

/-- A continuation byte `10xxxxxx` of a UTF-8 sequence, read from an escape
`%XX`; gives its six payload bits. -/
def continuationByte (p h l : Nat) : Option Nat :=
  if p = 37 then
    match parseHexOctet h l with
    | some b => if 128 ≤ b ∧ b < 192 then some (b - 128) else none
    | none => none
  else none

/-- The loop of the abstract operation `Decode` with an empty preserve set:
every escape `%XX` is replaced by the code point that the escaped bytes
encode in UTF-8, and a malformed escape raises a `URIError`. -/
def decodeLoop : JSString → Except JSError JSString
  | [] => .ok []
  | c :: rest =>
    if c ≠ 37 then (decodeLoop rest).map (c :: ·)
    else
      match rest with
      | h :: l :: r1 =>
        match parseHexOctet h l with
        | none => .error .uriError
        | some b =>
          if b < 128 then (decodeLoop r1).map (b :: ·)
          else if b < 192 then .error .uriError
          else if b < 224 then
            match r1 with
            | p1 :: h1 :: l1 :: r2 =>
              match continuationByte p1 h1 l1 with
              | some x1 =>
                let v := (b - 192) * 64 + x1
                if 128 ≤ v then (decodeLoop r2).map (utf16EncodeCodePoint v ++ ·)
                else .error .uriError
              | none => .error .uriError
            | _ => .error .uriError
          else if b < 240 then
            match r1 with
            | p1 :: h1 :: l1 :: p2 :: h2 :: l2 :: r3 =>
              match continuationByte p1 h1 l1, continuationByte p2 h2 l2 with
              | some x1, some x2 =>
                let v := (b - 224) * 4096 + x1 * 64 + x2
                if 2048 ≤ v ∧ ¬ (55296 ≤ v ∧ v ≤ 57343) then
                  (decodeLoop r3).map (utf16EncodeCodePoint v ++ ·)
                else .error .uriError
              | _, _ => .error .uriError
            | _ => .error .uriError
          else if b < 248 then
            match r1 with
            | p1 :: h1 :: l1 :: p2 :: h2 :: l2 :: p3 :: h3 :: l3 :: r4 =>
              match continuationByte p1 h1 l1, continuationByte p2 h2 l2,
                    continuationByte p3 h3 l3 with
              | some x1, some x2, some x3 =>
                let v := (b - 240) * 262144 + x1 * 4096 + x2 * 64 + x3
                if 65536 ≤ v ∧ v ≤ 1114111 then
                  (decodeLoop r4).map (utf16EncodeCodePoint v ++ ·)
                else .error .uriError
              | _, _, _ => .error .uriError
            | _ => .error .uriError
          else .error .uriError
      | _ => .error .uriError

/-- The global function `decodeURIComponent`. -/
def decodeURIComponent (s : JSString) : Except JSError JSString := decodeLoop s

/-! ## `getCookie` -/

/-- The `for` loop of `getCookie` over the pieces of `document.cookie`: the
first piece that starts with `name=` after trimming ends the loop with the
decoded remainder; when the pieces run out the value is still `null`. -/
def getCookieLoop (name : JSString) : List JSString → Except JSError (Option JSString)
  | [] => .ok none
  | piece :: pieces =>
    let cookie := trim piece
    if substring cookie 0 (name.length + 1) = name ++ [61] then
      (decodeURIComponent (substringFrom cookie (name.length + 1))).map some
    else getCookieLoop name pieces

/-- The function `getCookie(name)`, reading `document.cookie` from the second
argument; `none` is `null`. -/
def getCookie (name : JSString) (documentCookie : JSString) :
    Except JSError (Option JSString) :=
  if documentCookie ≠ [] then getCookieLoop name (split 59 documentCookie)
  else .ok none

/-- A piece of the cookie string names the cookie `name`: after trimming it
starts with `name` followed by `=`. -/
def namesCookie (name piece : JSString) : Prop := (name ++ [61]) <+: trim piece

instance (name piece : JSString) : Decidable (namesCookie name piece) := by
  unfold namesCookie; infer_instance

/-! ## Numbers -/

/-- The Number values the script can produce: NaN, the infinities, negative
zero, and the finite integer-valued doubles (`int 0` is positive zero). -/
inductive JSNum where
  | nan
  | posInf
  | negInf
  | negZero
  | int (i : Int)
  deriving DecidableEq, Repr

/-- The number of binary digits of `m` beyond its leading 53; `fuel` bounds
the count. -/
def extraBits : Nat → Nat → Nat
  | 0, _ => 0
  | fuel + 1, m => if m < 2 ^ 53 then 0 else extraBits fuel (m / 2) + 1

/-- A natural number rounded to the nearest double (53 significant bits), ties
to even. Numbers below `2 ^ 53` are exact. -/
def roundToDouble (m : Nat) : Nat :=
  if m < 2 ^ 53 then m
  else
    let sh := extraBits m m
    let q := m / 2 ^ sh
    let r := m % 2 ^ sh
    let half := 2 ^ (sh - 1)
    if r < half then q * 2 ^ sh
    else if r = half then (if q % 2 = 0 then q else q + 1) * 2 ^ sh
    else (q + 1) * 2 ^ sh

/-- The first power of two beyond the finite doubles, `2 ^ 1024`. -/
def overflowBound : Nat := 16 ^ 256

/-- The Number value of a mathematical integer: rounded to a double, and an
infinity when the rounded magnitude reaches `2 ^ 1024`. -/
def JSNum.ofInt (i : Int) : JSNum :=
  let m := roundToDouble i.natAbs
  if overflowBound ≤ m then (if i < 0 then .negInf else .posInf)
  else .int (if i < 0 then - (m : Int) else m)

/-- Unary minus. -/
def JSNum.neg : JSNum → JSNum
  | .nan => .nan
  | .posInf => .negInf
  | .negInf => .posInf
  | .negZero => .int 0
  | .int i => if i = 0 then .negZero else .int (- i)

/-- The operator `+` on Numbers: the exact sum rounded to a double. -/
def JSNum.add : JSNum → JSNum → JSNum
  | .nan, _ => .nan
  | _, .nan => .nan
  | .posInf, .negInf => .nan
  | .negInf, .posInf => .nan
  | .posInf, _ => .posInf
  | _, .posInf => .posInf
  | .negInf, _ => .negInf
  | _, .negInf => .negInf
  | .negZero, .negZero => .negZero
  | .negZero, .int j => .int j
  | .int i, .negZero => .int i
  | .int i, .int j => JSNum.ofInt (i + j)

/-- The operator `-` on Numbers. -/
def JSNum.sub (a b : JSNum) : JSNum := a.add b.neg

/-- The comparison `a > b` on Numbers; false when either side is NaN. -/
def JSNum.gt : JSNum → JSNum → Bool
  | .nan, _ => false
  | _, .nan => false
  | .posInf, .posInf => false
  | .posInf, _ => true
  | _, .posInf => false
  | .negInf, _ => false
  | _, .negInf => true
  | .negZero, .negZero => false
  | .negZero, .int j => decide (0 > j)
  | .int i, .negZero => decide (i > 0)
  | .int i, .int j => decide (i > j)

/-- The operation `ToBoolean` on Numbers: zero, negative zero and NaN are falsy. -/
def JSNum.truthy : JSNum → Bool
  | .nan => false
  | .negZero => false
  | .int i => decide (i ≠ 0)
  | _ => true

/-- The operator `a || b` on Numbers. -/
def JSNum.orElse (a b : JSNum) : JSNum := if a.truthy then a else b

/-- The mathematical integer a Number stands for, when it is one. -/
def JSNum.toInt? : JSNum → Option Int
  | .int i => some i
  | .negZero => some 0
  | _ => none

/-- The decimal numeral of a natural number, most significant digit first;
`fuel` bounds the number of digits. -/
def decimalFuel : Nat → Nat → JSString
  | 0, _ => []
  | fuel + 1, n =>
    if n < 10 then [48 + n] else decimalFuel fuel (n / 10) ++ [48 + n % 10]

/-- The decimal numeral of a natural number. -/
def decimal (n : Nat) : JSString := decimalFuel (n + 1) n

/-- The decimal numeral of an integer, with a minus sign when negative. -/
def decimalInt (i : Int) : JSString :=
  if i < 0 then 45 :: decimal i.natAbs else decimal i.natAbs

/-- The candidates with `k` significant digits next to `m`, where `n` is the
number of digits of `m`: `m` with its last `n - k` digits cleared, and the next
multiple of `10 ^ (n - k)`. -/
def candidates (m n k : Nat) : Nat × Nat :=
  let p := 10 ^ (n - k)
  ((m / p) * p, (m / p + 1) * p)

/-- Search of `Number::toString` for the numeral with the fewest significant
digits that still reads back as the double `m`; among two such numerals the
one closer to `m`. The digit counts `k` are tried in the order given. -/
def shortestFrom (m n : Nat) : List Nat → Nat
  | [] => m
  | k :: ks =>
    let lo := (candidates m n k).1
    let hi := (candidates m n k).2
    let okLo := decide (lo ≠ 0 ∧ roundToDouble lo = m)
    let okHi := decide (roundToDouble hi = m)
    if okLo ∧ okHi then (if m - lo ≤ hi - m then lo else hi)
    else if okLo then lo
    else if okHi then hi
    else shortestFrom m n ks

/-- The numeral, as a number, that `Number::toString` prints for the positive
integer-valued double `m`. -/
def shortest (m : Nat) : Nat :=
  let n := (decimal m).length
  shortestFrom m n ((List.range n).map (· + 1))

/-- A number without its trailing decimal zeros; `fuel` bounds their count. -/
def stripZeros : Nat → Nat → Nat
  | 0, c => c
  | fuel + 1, c => if c ≠ 0 ∧ c % 10 = 0 then stripZeros fuel (c / 10) else c

/-- The text of a positive integer numeral `c` as `Number::toString` lays it
out: plain digits up to 21 digits, exponent form beyond. -/
def layout (c : Nat) : JSString :=
  let n := (decimal c).length
  if n ≤ 21 then decimal c
  else
    match decimal (stripZeros n c) with
    | [] => []
    | [d] => d :: 101 :: 43 :: decimal (n - 1)
    | d :: ds => d :: 46 :: (ds ++ 101 :: 43 :: decimal (n - 1))

/-- The operation `Number::toString` (radix 10) on the Numbers of the script. -/
def numberToString : JSNum → JSString
  | .nan => utf16 "NaN"
  | .posInf => utf16 "Infinity"
  | .negInf => utf16 "-Infinity"
  | .negZero => [48]
  | .int i =>
    if i = 0 then [48]
    else if i < 0 then 45 :: layout (shortest i.natAbs)
    else layout (shortest i.natAbs)

/-- Value of a digit of the given radix (10 or 16) written as a code unit. -/
def digitValue (radix : Nat) (c : Nat) : Option Nat :=
  if radix = 16 then hexDigit c
  else if 48 ≤ c ∧ c ≤ 57 then some (c - 48) else none

/-- The values of the longest prefix of digits of the given radix. -/
def leadingDigits (radix : Nat) : JSString → List Nat
  | [] => []
  | c :: rest =>
    match digitValue radix c with
    | some d => d :: leadingDigits radix rest
    | none => []

/-- The number written by a list of digit values, most significant first. -/
def digitsValue (radix : Nat) (ds : List Nat) : Nat :=
  ds.foldl (fun acc d => acc * radix + d) 0

/-- The sign step of `parseInt`: whether the text starts with `-`, and the
text without a leading `-` or `+`. -/
def stripSign : JSString → Bool × JSString
  | 45 :: r => (true, r)
  | 43 :: r => (false, r)
  | t => (false, t)

/-- The radix step of `parseInt` with no radix argument: radix 16 and the
text without its prefix when it starts with `0x` or `0X`, radix 10 and the
text as it is otherwise. -/
def stripRadixPrefix : JSString → Nat × JSString
  | 48 :: 120 :: r => (16, r)
  | 48 :: 88 :: r => (16, r)
  | t => (10, t)

/-- The function `Number.parseInt(string)` with no radix argument: leading white space is
skipped, then an optional sign, then an optional `0x`/`0X` prefix (radix 16,
otherwise radix 10), then the longest run of digits; no digit gives NaN. The
digits are read exactly and the result is rounded to a double. -/
def parseInt (s : JSString) : JSNum :=
  let signed := stripSign (trimStart s)
  let based := stripRadixPrefix signed.2
  let ds := leadingDigits based.1 based.2
  if ds = [] then .nan
  else
    let m := digitsValue based.1 ds
    if m = 0 then (if signed.1 then .negZero else .int 0)
    else JSNum.ofInt (if signed.1 then - (m : Int) else m)

/-! ## The page -/

/-- A child of the `.main` container: an element with its identity, class
attribute and text. -/
structure Node where
  id : Nat
  className : JSString
  textContent : JSString
  deriving DecidableEq, Repr

/-- A pending `setTimeout` callback of `showMessage`: the time it becomes due
(in milliseconds) and the identity of the notice it removes. -/
structure Timer where
  due : Nat
  target : Nat
  deriving DecidableEq, Repr

/-- The part of the document that add-to-cart and the notices work on:
the children of the first `.main` element and the text of the first
`.cart-count` element (`none` when the page has no such element), the pending
timers, the clock, the identity for the next created element, and the lines
written with `console.error`. -/
structure Page where
  main : Option (List Node)
  cartCount : Option JSString
  timers : List Timer
  now : Nat
  nextId : Nat
  console : List JSString
  deriving DecidableEq, Repr

/-- The state a call leaves behind and the exception it ended with, if any. -/
structure Outcome where
  page : Page
  thrown : Option JSError
  deriving DecidableEq, Repr

/-- The function `showMessage(message, type)`: a new `div` with class
`message message-<type>` and the given text becomes the first child of
`.main`, and a timer is set to remove that `div` 3000 ms later. With no
`.main` element `main.insertBefore` raises a `TypeError`. -/
def showMessage (message type : JSString) (p : Page) : Outcome :=
  let messageDiv : Node :=
    { id := p.nextId, className := utf16 "message message-" ++ type, textContent := message }
  match p.main with
  | none => { page := { p with nextId := p.nextId + 1 }, thrown := some .typeError }
  | some children =>
    { page := { p with
        main := some (messageDiv :: children)
        timers := p.timers ++ [{ due := p.now + 3000, target := messageDiv.id }]
        nextId := p.nextId + 1 }
      thrown := none }

/-- The callback of the timer set by `showMessage`: `messageDiv.remove()`. -/
def removeNotice (target : Nat) (p : Page) : Page :=
  { p with main := p.main.map (fun children => children.filter (fun x => x.id ≠ target)) }

/-- The function `updateCartCount()`. -/
def updateCartCount (p : Page) : Page :=
  match p.cartCount with
  | some textContent =>
    let count := (parseInt textContent).orElse (.int 0)
    { p with cartCount := some (numberToString (count.add (.int 1))) }
  | none => p

/-! ## Add to cart -/

/-- The request issued by `addToCart`. -/
structure Request where
  url : JSString
  method : JSString
  headers : List (JSString × JSString)
  deriving DecidableEq, Repr

/-- The JSON body of the add-to-cart response, of the shape
`{ success: boolean }`. -/
structure CartResponse where
  success : Bool
  deriving DecidableEq, Repr

/-- How the promise chain `fetch(...).then(response => response.json())`
settles: with the parsed body, or rejected (transport or parse failure). -/
inductive FetchResult where
  | resolved (data : CartResponse)
  | rejected
  deriving DecidableEq, Repr

/-- The synchronous part of `addToCart(productId)`: the request passed to
`fetch`; a `null` token is sent as the text `null`. -/
def addToCart (productId documentCookie : JSString) : Except JSError Request :=
  match getCookie (utf16 "csrftoken") documentCookie with
  | .error e => .error e
  | .ok token =>
    .ok { url := utf16 "/add-to-cart/" ++ productId ++ utf16 "/"
          method := utf16 "POST"
          headers := [(utf16 "X-CSRFToken", token.getD (utf16 "null")),
                      (utf16 "Content-Type", utf16 "application/json")] }

/-- The callback `(data) => { ... }` of `addToCart`. -/
def addToCartThen (data : CartResponse) (p : Page) : Outcome :=
  if data.success then
    let shown := showMessage (utf16 "Product added to cart!") (utf16 "success") p
    match shown.thrown with
    | some e => { page := shown.page, thrown := some e }
    | none => { page := updateCartCount shown.page, thrown := none }
  else showMessage (utf16 "Please sign in to add items to cart") (utf16 "error") p

/-- The callback `(error) => { ... }` of `addToCart`. -/
def addToCartCatch (p : Page) : Outcome :=
  showMessage (utf16 "Error adding product to cart") (utf16 "error")
    { p with console := p.console ++ [utf16 "Error:"] }

/-- The continuation of `addToCart` when its request settles: the `then`
callback on a parsed body, the `catch` callback on a rejection or when the
`then` callback throws. -/
def addToCartSettle (result : FetchResult) (p : Page) : Outcome :=
  match result with
  | .resolved data =>
    let done := addToCartThen data p
    match done.thrown with
    | some _ => addToCartCatch done.page
    | none => done
  | .rejected => addToCartCatch p

/-- What can happen to the page: a call of `showMessage`, an add-to-cart
request settling, a call of `updateCartCount`, time passing, and a timer
callback running. -/
inductive Event where
  | showMessage (message type : JSString)
  | settle (result : FetchResult)
  | updateCartCount
  | advance (ms : Nat)
  | timeout (t : Timer)
  deriving DecidableEq, Repr

/-- One event. A timer callback runs only when the timer is pending and due,
and is then no longer pending. -/
def step (p : Page) : Event → Page
  | .showMessage message type => (showMessage message type p).page
  | .settle result => (addToCartSettle result p).page
  | .updateCartCount => updateCartCount p
  | .advance ms => { p with now := p.now + ms }
  | .timeout t =>
    if t ∈ p.timers ∧ t.due ≤ p.now then
      removeNotice t.target { p with timers := p.timers.erase t }
    else p

/-- A sequence of events, in order. -/
def run (p : Page) (events : List Event) : Page := events.foldl step p

/-! ## Quantity on the product page -/

/-- The function `increaseQuantity()`, on the value of the `#quantity` field
(`none` when the page has no such field). -/
def increaseQuantity (quantityInput : Option JSString) : Option JSString :=
  match quantityInput with
  | some value => some (numberToString ((parseInt value).add (.int 1)))
  | none => none

/-- The function `decreaseQuantity()`. -/
def decreaseQuantity (quantityInput : Option JSString) : Option JSString :=
  match quantityInput with
  | some value =>
    if (parseInt value).gt (.int 1) then
      some (numberToString ((parseInt value).sub (.int 1)))
    else some value
  | none => none

/-- A click on one of the two quantity buttons of the product page. -/
inductive QuantityClick where
  | increase
  | decrease
  deriving DecidableEq, Repr

/-- The handler of a quantity click. -/
def QuantityClick.apply (q : Option JSString) : QuantityClick → Option JSString
  | .increase => increaseQuantity q
  | .decrease => decreaseQuantity q

/-! ## Quantity in a cart row -/

/-- A row of the cart page as seen from its buttons: the value of the
`input[name="quantity"]` under the button's parent (`none` when there is no
such input), whether that input has a form owner, and the quantities the form
has been submitted with, oldest first. -/
structure CartRow where
  input : Option JSString
  hasForm : Bool
  submitted : List JSString
  deriving DecidableEq, Repr

/-- The state of a cart row after a call and the exception it ended with. -/
structure RowOutcome where
  row : CartRow
  thrown : Option JSError
  deriving DecidableEq, Repr

/-- The call `input.form.submit()`: the form is sent with the current value of
the quantity input; with no form owner `input.form` is `null` and the call
raises a `TypeError`. -/
def submitForm (row : CartRow) : RowOutcome :=
  match row.input, row.hasForm with
  | some value, true => { row := { row with submitted := row.submitted ++ [value] }, thrown := none }
  | _, _ => { row := row, thrown := some .typeError }

/-- The function `increaseCartQuantity(button)`. -/
def increaseCartQuantity (row : CartRow) : RowOutcome :=
  match row.input with
  | none => { row := row, thrown := some .typeError }
  | some value =>
    submitForm { row with input := some (numberToString ((parseInt value).add (.int 1))) }

/-- The function `decreaseCartQuantity(button)`. -/
def decreaseCartQuantity (row : CartRow) : RowOutcome :=
  match row.input with
  | none => { row := row, thrown := some .typeError }
  | some value =>
    if (parseInt value).gt (.int 1) then
      submitForm { row with input := some (numberToString ((parseInt value).sub (.int 1))) }
    else { row := row, thrown := none }

/-! ## Form validation -/

/-- An `input` element of a form: whether it carries the `required`
attribute, its value, and the border colour of its inline style. -/
structure Input where
  required : Bool
  value : JSString
  borderColor : JSString
  deriving DecidableEq, Repr

/-- The colour `#dc3545` that marks an error. -/
def errorColor : JSString := utf16 "#dc3545"

/-- The colour `#e1e5e9` of a filled field. -/
def neutralColor : JSString := utf16 "#e1e5e9"

/-- The colour `#28a745` of a matching confirmation. -/
def matchColor : JSString := utf16 "#28a745"

/-- The call `form.querySelectorAll("input[required]")`: the positions, in
document order, of the inputs of the form that carry `required`. -/
def requiredInputs (form : List Input) : List Nat :=
  (List.range form.length).filter (fun i =>
    match form[i]? with
    | some input => input.required
    | none => false)

/-- The body of the `forEach` callback of `validateForm` on the input at
position `i`, with the variable `isValid` and the form as state. -/
def validateInput (state : Bool × List Input) (i : Nat) : Bool × List Input :=
  match state.2[i]? with
  | none => state
  | some input =>
    if trim input.value = [] then
      (false, state.2.set i { input with borderColor := errorColor })
    else
      (state.1, state.2.set i { input with borderColor := neutralColor })

/-- The function `validateForm(form)`: the returned `isValid` and the form
with the border colours it has set. -/
def validateForm (form : List Input) : Bool × List Input :=
  (requiredInputs form).foldl validateInput (true, form)

/-! ## Password confirmation -/

/-- A text field: its value and the border colour of its inline style. -/
structure Field where
  value : JSString
  borderColor : JSString
  deriving DecidableEq, Repr

/-- The sign-up page as the password check sees it: the `#confirm_password`
and `#password` fields, `none` when absent. -/
structure SignupPage where
  confirmPassword : Option Field
  password : Option Field
  deriving DecidableEq, Repr

/-- The `input` listener of the confirmation field. It is registered only
when both fields exist; otherwise an `input` event runs no code. -/
def onConfirmInput (pg : SignupPage) : SignupPage :=
  match pg.confirmPassword, pg.password with
  | some confirm, some password =>
    let borderColor := if confirm.value ≠ password.value then errorColor else matchColor
    { pg with confirmPassword := some { confirm with borderColor := borderColor } }
  | _, _ => pg

/-- What the user does on the sign-up page: a keystroke in the confirmation
field leaves it with a new value and fires its `input` event; a keystroke in
the password field leaves that field with a new value. -/
inductive Keystroke where
  | confirm (value : JSString)
  | password (value : JSString)
  deriving DecidableEq, Repr

/-- The page after one keystroke. -/
def Keystroke.apply (pg : SignupPage) : Keystroke → SignupPage
  | .confirm value =>
    onConfirmInput { pg with confirmPassword := pg.confirmPassword.map (fun f => { f with value := value }) }
  | .password value =>
    { pg with password := pg.password.map (fun f => { f with value := value }) }

/-! ## Notions used to state the properties -/

/-- A value is blank: nothing is left of it after trimming. -/
def isBlank (value : JSString) : Bool := decide (trim value = [])

/-- An input with the border colour that validation gives to a required
input: the error colour when its value is blank, the neutral colour
otherwise. -/
def marked (input : Input) : Input :=
  { input with borderColor := if isBlank input.value then errorColor else neutralColor }

/-- The input at position `i` of the form, if any, has a value that is not
blank. -/
def filledAt (form : List Input) (i : Nat) : Bool :=
  match form[i]? with
  | some x => !isBlank x.value
  | none => true

/-- A click on one of the two quantity buttons of a cart row. -/
inductive CartClick where
  | increase
  | decrease
  deriving DecidableEq, Repr

/-- The row after the handler of a cart click has run. -/
def CartClick.apply (row : CartRow) : CartClick → CartRow
  | .increase => (increaseCartQuantity row).row
  | .decrease => (decreaseCartQuantity row).row

/-- The children of `.main`; none when the page has no `.main`. -/
def Page.children (p : Page) : List Node := p.main.getD []

/-- The identity for the next created element is new: every child of `.main`
and every target of a pending timer is older. -/
def Page.fresh (p : Page) : Prop :=
  (∀ x ∈ p.children, x.id < p.nextId) ∧ (∀ t ∈ p.timers, t.target < p.nextId)

/-- What holds of a page from the moment `showMessage` has shown `notice` and
set its timer `tm`, whatever happens next: the notice and its timer are the
only ones with that identity, the notice is among the children of `.main` as
long as its timer is pending, and the timer is pending as long as it is not
due. -/
structure NoticeInv (notice : Node) (tm : Timer) (q : Page) : Prop where
  main_some : q.main.isSome = true
  id_lt : notice.id < q.nextId
  ids_lt : ∀ x ∈ q.children, x.id < q.nextId
  only_node : ∀ x ∈ q.children, x.id = notice.id → x = notice
  only_timer : ∀ t ∈ q.timers, t.target = notice.id → t = tm
  count_le : q.timers.count tm ≤ 1
  pending_present : tm ∈ q.timers → notice ∈ q.children
  early_pending : q.now < tm.due → tm ∈ q.timers

/-- The notice that `showMessage message type` creates on page `p`. -/
def shownNotice (message type : JSString) (p : Page) : Node :=
  ⟨p.nextId, utf16 "message message-" ++ type, message⟩

/-- The timer that `showMessage` sets on page `p`: due 3000 ms from now, for
the notice it has just created. -/
def noticeTimer (p : Page) : Timer := ⟨p.now + 3000, p.nextId⟩

/-! ## Facts about strings -/

theorem substring_zero (s : JSString) (k : Nat) : substring s 0 k = s.take k := by
  simp [substring]

theorem substringFrom_eq_drop (s : JSString) (k : Nat) : substringFrom s k = s.drop k := by
  unfold substringFrom substring
  rcases Nat.le_total k s.length with h | h
  · simp [Nat.min_eq_left h, Nat.max_eq_right h]
  · simp [Nat.min_eq_right h, List.drop_eq_nil_of_le h]

theorem take_eq_iff_prefix (pre s : JSString) :
    s.take pre.length = pre ↔ pre <+: s := by
  constructor
  · intro h
    exact h ▸ List.take_prefix _ _
  · rintro ⟨t, rfl⟩
    simp

theorem startsWith_iff (name cookie : JSString) :
    substring cookie 0 (name.length + 1) = name ++ [61] ↔ (name ++ [61]) <+: cookie := by
  rw [substring_zero, ← take_eq_iff_prefix]
  simp

theorem split_ne_nil (sep : Nat) (s : JSString) : split sep s ≠ [] := by
  cases s with
  | nil => simp [split]
  | cons c rest =>
    unfold split
    split_ifs
    · simp
    · cases split sep rest <;> simp

/-- Joining the pieces with the separator gives the string back. -/
theorem split_intercalate (sep : Nat) (s : JSString) :
    List.intercalate [sep] (split sep s) = s := by
  induction s with
  | nil => simp [split, List.intercalate]
  | cons c rest ih =>
    unfold split
    split_ifs with h
    · subst h
      have hne := split_ne_nil c rest
      cases hsp : split c rest with
      | nil => exact absurd hsp hne
      | cons piece pieces =>
        rw [hsp] at ih
        simp [List.intercalate] at ih ⊢
        simpa [List.intersperse] using ih
    · have hne := split_ne_nil sep rest
      cases hsp : split sep rest with
      | nil => exact absurd hsp hne
      | cons piece pieces =>
        rw [hsp] at ih
        cases pieces with
        | nil => simpa [List.intercalate, List.intersperse] using ih
        | cons q qs => simpa [List.intercalate, List.intersperse] using ih

/-- No piece contains the separator. -/
theorem split_no_sep (sep : Nat) (s : JSString) :
    ∀ piece ∈ split sep s, sep ∉ piece := by
  induction s with
  | nil => simp [split]
  | cons c rest ih =>
    unfold split
    split_ifs with h
    · intro piece hp
      rcases List.mem_cons.1 hp with rfl | hp
      · simp
      · exact ih piece hp
    · cases hsp : split sep rest with
      | nil => simp [Ne.symm h]
      | cons q qs =>
        rw [hsp] at ih
        intro piece hp
        rcases List.mem_cons.1 hp with rfl | hp
        · have := ih q (List.mem_cons_self _ _)
          simp [Ne.symm h, this]
        · exact ih piece (List.mem_cons_of_mem _ hp)

/-! ## Facts about `getCookie` -/

theorem getCookieLoop_skip (name : JSString) (pre rest : List JSString)
    (hpre : ∀ s ∈ pre, ¬ namesCookie name s) :
    getCookieLoop name (pre ++ rest) = getCookieLoop name rest := by
  induction pre with
  | nil => rfl
  | cons p ps ih =>
    have hp : ¬ namesCookie name p := hpre p (List.mem_cons_self _ _)
    have hps : ∀ s ∈ ps, ¬ namesCookie name s :=
      fun s hs => hpre s (List.mem_cons_of_mem _ hs)
    simp only [List.cons_append, getCookieLoop]
    rw [if_neg (fun h => hp ((startsWith_iff name (trim p)).1 h))]
    exact ih hps

theorem getCookieLoop_hit (name piece : JSString) (pieces : List JSString)
    (h : namesCookie name piece) :
    getCookieLoop name (piece :: pieces)
      = (decodeURIComponent ((trim piece).drop (name.length + 1))).map some := by
  simp only [getCookieLoop]
  rw [if_pos ((startsWith_iff name (trim piece)).2 h), substringFrom_eq_drop]

theorem getCookieLoop_none_iff (name : JSString) (pieces : List JSString) :
    getCookieLoop name pieces = .ok none ↔ ∀ s ∈ pieces, ¬ namesCookie name s := by
  induction pieces with
  | nil => simp [getCookieLoop]
  | cons p ps ih =>
    by_cases hp : namesCookie name p
    · rw [getCookieLoop_hit name p ps hp]
      constructor
      · intro h
        cases hd : decodeURIComponent ((trim p).drop (name.length + 1)) with
        | error e => rw [hd] at h; simp [Except.map] at h
        | ok v => rw [hd] at h; simp [Except.map] at h
      · intro h
        exact absurd hp (h p (List.mem_cons_self _ _))
    · have := getCookieLoop_skip name [p] ps (by simpa using hp)
      simp only [List.singleton_append] at this
      rw [this, ih]
      simp [hp]

/-! ## Cookie lookup -/

/-- C1: when a piece of `document.cookie` (split at `;`, trimmed) starts with
`name=`, `getCookie name` returns the URI-decoded remainder of the FIRST such
piece: the whole text after `name=`, further `=` signs included, whenever that
remainder decodes. Here `pre` are the pieces before the first matching one. -/
theorem getCookie_first_match (name c : JSString) (pre post : List JSString)
    (piece rest v : JSString)
    (hsplit : split 59 c = pre ++ piece :: post)
    (hpre : ∀ s ∈ pre, ¬ namesCookie name s)
    (hpiece : trim piece = name ++ 61 :: rest)
    (hdec : decodeURIComponent rest = .ok v) :
    getCookie name c = .ok (some v) := by
  have hhit : namesCookie name piece := by
    unfold namesCookie
    rw [hpiece]
    exact ⟨rest, by simp⟩
  have hc : c ≠ [] := by
    rintro rfl
    have h1 : ([[]] : List JSString) = pre ++ piece :: post := by simpa [split] using hsplit
    cases pre with
    | nil =>
      simp only [List.nil_append, List.cons.injEq] at h1
      have hp : piece = [] := h1.1.symm
      subst hp
      have : trim ([] : JSString) = [] := rfl
      rw [this] at hpiece
      cases name <;> simp at hpiece
    | cons p ps =>
      simp only [List.cons_append, List.cons.injEq] at h1
      simp at h1
  unfold getCookie
  rw [if_pos hc, hsplit, getCookieLoop_skip name pre _ hpre, getCookieLoop_hit name piece post hhit,
    hpiece]
  have hdrop : (name ++ 61 :: rest).drop (name.length + 1) = rest := by
    have : name ++ 61 :: rest = (name ++ [61]) ++ rest := by simp
    rw [this]
    exact List.drop_left' (by simp)
  rw [hdrop, hdec]
  rfl

/-- C1 on the example of the specification, where looking up `csrftoken` in
`csrftoken=abc123; other=1` gives exactly `abc123`, and on a cookie string with
two pieces for `a`, where the first one wins and its value keeps its `=`
signs. -/
theorem getCookie_first_match_witness :
    getCookie (utf16 "csrftoken") (utf16 "csrftoken=abc123; other=1")
      = .ok (some (utf16 "abc123")) ∧
    getCookie (utf16 "a") (utf16 "ba=0; a=b%3Dc=d ;a=2") = .ok (some (utf16 "b=c=d")) :=
  ⟨getCookie_first_match (utf16 "csrftoken") (utf16 "csrftoken=abc123; other=1")
      [] [utf16 " other=1"] (utf16 "csrftoken=abc123") (utf16 "abc123") (utf16 "abc123")
      (by decide) (by simp) (by decide) (by decide),
   getCookie_first_match (utf16 "a") (utf16 "ba=0; a=b%3Dc=d ;a=2")
      [utf16 "ba=0"] [utf16 "a=2"] (utf16 " a=b%3Dc=d ") (utf16 "b%3Dc=d") (utf16 "b=c=d")
      (by decide) (by decide) (by decide) (by decide)⟩

/-- C2: `getCookie name` returns `null` exactly when no piece of
`document.cookie` (split at `;`, trimmed) starts with `name=`; an empty cookie
string gives `null`; a cookie whose name only ends with `name` does not match;
a matching cookie with an empty value gives the empty string, not `null`. -/
theorem getCookie_null_iff :
    (∀ name c : JSString,
      getCookie name c = .ok none ↔ ∀ s ∈ split 59 c, ¬ namesCookie name s) ∧
    (∀ name : JSString, getCookie name [] = .ok none) ∧
    getCookie (utf16 "token") (utf16 "csrftoken=abc123") = .ok none ∧
    getCookie (utf16 "csrftoken") (utf16 "other=1; csrftoken=") = .ok (some []) := by
  refine ⟨?_, ?_, by decide, by decide⟩
  · intro name c
    unfold getCookie
    by_cases hc : c = []
    · subst hc
      simp only [ne_eq, not_true_eq_false, if_false, true_iff]
      intro s hs
      have hs' : s = [] := by simpa [split] using hs
      subst hs'
      unfold namesCookie
      have : trim ([] : JSString) = [] := rfl
      rw [this]
      simp
    · rw [if_pos hc]
      exact getCookieLoop_none_iff name (split 59 c)
  · intro name
    simp [getCookie]

/-! ## Facts about numbers -/

theorem two53_lt_overflowBound : 2 ^ 53 < overflowBound := by
  unfold overflowBound
  norm_num

theorem roundToDouble_small (m : Nat) (h : m < 2 ^ 53) : roundToDouble m = m := by
  unfold roundToDouble
  rw [if_pos h]

theorem roundToDouble_two53 : roundToDouble (2 ^ 53) = 2 ^ 53 := by decide

theorem roundToDouble_exact (m : Nat) (h : m ≤ 2 ^ 53) : roundToDouble m = m := by
  rcases Nat.lt_or_eq_of_le h with h | h
  · exact roundToDouble_small m h
  · rw [h]; exact roundToDouble_two53

theorem extraBits_spec (fuel : Nat) : ∀ m : Nat, 2 ^ 52 ≤ m → 2 ^ extraBits fuel m * 2 ^ 52 ≤ m := by
  induction fuel with
  | zero => intro m h; simpa [extraBits] using h
  | succ fuel ih =>
    intro m h
    unfold extraBits
    split_ifs with hm
    · simpa using h
    · have h2 : 2 ^ 52 ≤ m / 2 := by
        have : 2 ^ 53 ≤ m := Nat.le_of_not_lt hm
        omega
      have := ih (m / 2) h2
      rw [pow_succ]
      have hdiv : m / 2 * 2 ≤ m := Nat.div_mul_le_self m 2
      nlinarith

theorem extraBits_pos (m : Nat) (h : 2 ^ 53 ≤ m) : 1 ≤ extraBits m m := by
  cases m with
  | zero => simp at h
  | succ k =>
    unfold extraBits
    rw [if_neg (Nat.not_lt.2 h)]
    omega

theorem roundToDouble_large (m : Nat) (h : 2 ^ 53 ≤ m) : 2 ^ 53 ≤ roundToDouble m := by
  have hspec := extraBits_spec m m (le_trans (by norm_num) h)
  have hpos := extraBits_pos m h
  have hq : 2 ^ 52 ≤ m / 2 ^ extraBits m m := by
    rw [Nat.le_div_iff_mul_le (by positivity)]
    rw [Nat.mul_comm]
    exact hspec
  have h2 : 2 ≤ 2 ^ extraBits m m := by
    calc 2 = 2 ^ 1 := by norm_num
      _ ≤ 2 ^ extraBits m m := Nat.pow_le_pow_right (by norm_num) hpos
  have hbase : 2 ^ 53 ≤ m / 2 ^ extraBits m m * 2 ^ extraBits m m := by
    calc 2 ^ 53 = 2 ^ 52 * 2 := by norm_num
      _ ≤ m / 2 ^ extraBits m m * 2 ^ extraBits m m := Nat.mul_le_mul hq h2
  have hup : m / 2 ^ extraBits m m * 2 ^ extraBits m m
      ≤ (m / 2 ^ extraBits m m + 1) * 2 ^ extraBits m m :=
    Nat.mul_le_mul_right _ (Nat.le_succ _)
  unfold roundToDouble
  rw [if_neg (Nat.not_lt.2 h)]
  simp only
  split_ifs
  · exact hbase
  · exact hbase
  · exact le_trans hbase hup
  · exact le_trans hbase hup

theorem JSNum.ofInt_exact (i : Int) (h : i.natAbs ≤ 2 ^ 53) : JSNum.ofInt i = .int i := by
  unfold JSNum.ofInt
  simp only
  rw [roundToDouble_exact _ h]
  have hlt : ¬ overflowBound ≤ i.natAbs := by
    have := two53_lt_overflowBound
    omega
  rw [if_neg hlt]
  congr 1
  split_ifs with hneg <;> omega

theorem shortestFrom_reads_back (m n : Nat) (hm : roundToDouble m = m) (ks : List Nat) :
    roundToDouble (shortestFrom m n ks) = m := by
  induction ks with
  | nil => exact hm
  | cons k ks ih =>
    unfold shortestFrom
    simp only [decide_eq_true_eq]
    split_ifs with h1 h2 h3 h4
    · exact h1.1.2
    · exact h1.2
    · exact h3.2
    · exact h4
    · exact ih

theorem shortest_small (m : Nat) (h : m < 2 ^ 53) : shortest m = m := by
  have hback : roundToDouble (shortest m) = m :=
    shortestFrom_reads_back m _ (roundToDouble_small m h) _
  by_cases hc : shortest m < 2 ^ 53
  · rw [roundToDouble_small _ hc] at hback
    exact hback
  · have := roundToDouble_large (shortest m) (Nat.le_of_not_lt hc)
    omega

theorem shortest_two53 : shortest (2 ^ 53) = 2 ^ 53 := by decide

theorem shortest_exact (m : Nat) (h : m ≤ 2 ^ 53) : shortest m = m := by
  rcases Nat.lt_or_eq_of_le h with h | h
  · exact shortest_small m h
  · rw [h]; exact shortest_two53

theorem decimalFuel_length (fuel : Nat) :
    ∀ n k : Nat, 1 ≤ k → n < 10 ^ k → (decimalFuel fuel n).length ≤ k := by
  induction fuel with
  | zero => intro n k _ _; simp [decimalFuel]
  | succ fuel ih =>
    intro n k hk hn
    unfold decimalFuel
    split_ifs with h10
    · simpa using hk
    · have hk2 : 2 ≤ k := by
        by_contra hlt
        have : k = 1 := by omega
        subst this
        omega
      have hdiv : n / 10 < 10 ^ (k - 1) := by
        rw [Nat.div_lt_iff_lt_mul (by norm_num)]
        calc n < 10 ^ k := hn
          _ = 10 ^ (k - 1 + 1) := by rw [Nat.sub_add_cancel hk]
          _ = 10 ^ (k - 1) * 10 := pow_succ _ _
      have := ih (n / 10) (k - 1) (by omega) hdiv
      rw [List.length_append, List.length_singleton]
      omega

theorem layout_small (c : Nat) (h : c < 10 ^ 21) : layout c = decimal c := by
  have hlen : (decimal c).length ≤ 21 := decimalFuel_length _ c 21 (by norm_num) h
  unfold layout
  simp only
  rw [if_pos hlen]

theorem numberToString_int (i : Int) (h : i.natAbs ≤ 2 ^ 53) :
    numberToString (.int i) = decimalInt i := by
  have hlay : layout (shortest i.natAbs) = decimal i.natAbs := by
    rw [shortest_exact _ h]
    exact layout_small _ (lt_of_le_of_lt h (by norm_num))
  unfold decimalInt
  by_cases h0 : i = 0
  · subst h0; rfl
  · simp only [numberToString]
    rw [if_neg h0, hlay]

theorem decimalFuel_digits (fuel : Nat) :
    ∀ n : Nat, ∀ c ∈ decimalFuel fuel n, 48 ≤ c ∧ c ≤ 57 := by
  induction fuel with
  | zero => intro n c hc; simp [decimalFuel] at hc
  | succ fuel ih =>
    intro n c hc
    unfold decimalFuel at hc
    split_ifs at hc with h10
    · have : c = 48 + n := by simpa using hc
      omega
    · rcases List.mem_append.1 hc with hc | hc
      · exact ih _ c hc
      · have : c = 48 + n % 10 := by simpa using hc
        omega

theorem decimal_digits (n : Nat) : ∀ c ∈ decimal n, 48 ≤ c ∧ c ≤ 57 :=
  decimalFuel_digits (n + 1) n

theorem decimal_ne_nil (n : Nat) : decimal n ≠ [] := by
  unfold decimal decimalFuel
  split_ifs <;> simp

theorem digitsValue_append (radix : Nat) (ds : List Nat) (d : Nat) :
    digitsValue radix (ds ++ [d]) = digitsValue radix ds * radix + d := by
  simp [digitsValue, List.foldl_append]

theorem digitsValue_decimalFuel (fuel : Nat) :
    ∀ n : Nat, n < fuel → digitsValue 10 ((decimalFuel fuel n).map (· - 48)) = n := by
  induction fuel with
  | zero => intro n h; omega
  | succ fuel ih =>
    intro n h
    unfold decimalFuel
    split_ifs with h10
    · simp [digitsValue]
    · rw [List.map_append, List.map_singleton, digitsValue_append, ih (n / 10) (by omega)]
      simp only [Nat.add_sub_cancel_left]
      omega

theorem leadingDigits_of_digits (s : JSString) (h : ∀ c ∈ s, 48 ≤ c ∧ c ≤ 57) :
    leadingDigits 10 s = s.map (· - 48) := by
  induction s with
  | nil => rfl
  | cons c rest ih =>
    have hc := h c (List.mem_cons_self _ _)
    have hrest : ∀ x ∈ rest, 48 ≤ x ∧ x ≤ 57 := fun x hx => h x (List.mem_cons_of_mem _ hx)
    unfold leadingDigits
    have : digitValue 10 c = some (c - 48) := by
      unfold digitValue
      simp [hc.1, hc.2]
    rw [this]
    simp [ih hrest]

theorem isWhiteSpace_digit (c : Nat) (h : 48 ≤ c ∧ c ≤ 57) : isWhiteSpace c = false := by
  obtain ⟨h1, h2⟩ := h
  interval_cases c <;> rfl

theorem parseInt_digits (s : JSString) (hne : s ≠ [])
    (h : ∀ c ∈ s, 48 ≤ c ∧ c ≤ 57) :
    stripRadixPrefix s = (10, s) ∧ leadingDigits 10 s ≠ [] := by
  constructor
  · unfold stripRadixPrefix
    split
    · have := h 120 (by simp)
      omega
    · have := h 88 (by simp)
      omega
    · rfl
  · rw [leadingDigits_of_digits s h]
    simpa using hne

theorem parseInt_decimal (n : Nat) (h : n ≤ 2 ^ 53) : parseInt (decimal n) = .int n := by
  have hd := decimal_digits n
  have hne := decimal_ne_nil n
  obtain ⟨hpre, hlead⟩ := parseInt_digits (decimal n) hne hd
  have htrim : trimStart (decimal n) = decimal n := by
    unfold trimStart
    cases hs : decimal n with
    | nil => rfl
    | cons c rest =>
      have hc : isWhiteSpace c = false :=
        isWhiteSpace_digit c (hd c (by rw [hs]; exact List.mem_cons_self _ _))
      simp [List.dropWhile, hc]
  have hsign : stripSign (decimal n) = (false, decimal n) := by
    cases hs : decimal n with
    | nil => rfl
    | cons c rest =>
      have hc := hd c (by rw [hs]; exact List.mem_cons_self _ _)
      unfold stripSign
      split
      · rename_i heq; cases heq; omega
      · rename_i heq; cases heq; omega
      · rfl
  have hval : digitsValue 10 (leadingDigits 10 (decimal n)) = n := by
    rw [leadingDigits_of_digits _ hd]
    exact digitsValue_decimalFuel (n + 1) n (Nat.lt_succ_self n)
  unfold parseInt
  simp only [htrim, hsign, hpre, if_neg hlead, hval]
  by_cases h0 : n = 0
  · subst h0; rfl
  · rw [if_neg h0]
    simp only [Bool.false_eq_true, if_false]
    exact JSNum.ofInt_exact n (by simpa using h)

theorem parseInt_neg_decimal (n : Nat) (hpos : 0 < n) (h : n ≤ 2 ^ 53) :
    parseInt (45 :: decimal n) = .int (- (n : Int)) := by
  have hd := decimal_digits n
  have hne := decimal_ne_nil n
  obtain ⟨hpre, hlead⟩ := parseInt_digits (decimal n) hne hd
  have htrim : trimStart (45 :: decimal n) = 45 :: decimal n := by
    unfold trimStart
    have : isWhiteSpace 45 = false := rfl
    simp [List.dropWhile, this]
  have hsign : stripSign (45 :: decimal n) = (true, decimal n) := rfl
  have hval : digitsValue 10 (leadingDigits 10 (decimal n)) = n := by
    rw [leadingDigits_of_digits _ hd]
    exact digitsValue_decimalFuel (n + 1) n (Nat.lt_succ_self n)
  unfold parseInt
  simp only [htrim, hsign, hpre, if_neg hlead, hval]
  rw [if_neg (Nat.pos_iff_ne_zero.1 hpos)]
  simp only [if_true]
  exact JSNum.ofInt_exact _ (by simpa using h)

/-- The decimal text of an integer of magnitude at most `2 ^ 53` parses back
to that integer. -/
theorem parseInt_decimalInt (i : Int) (h : i.natAbs ≤ 2 ^ 53) :
    parseInt (decimalInt i) = .int i := by
  unfold decimalInt
  split_ifs with hneg
  · rw [parseInt_neg_decimal _ (by omega) h]
    congr 1
    omega
  · rw [parseInt_decimal _ h]
    congr 1
    omega

theorem JSNum.add_one_exact (v : Int) (h : (v + 1).natAbs ≤ 2 ^ 53) :
    (JSNum.int v).add (.int 1) = .int (v + 1) := by
  show JSNum.ofInt (v + 1) = _
  exact JSNum.ofInt_exact _ h

theorem JSNum.sub_one_exact (v : Int) (h : (v - 1).natAbs ≤ 2 ^ 53) :
    (JSNum.int v).sub (.int 1) = .int (v - 1) := by
  show JSNum.ofInt (v + -1) = _
  exact JSNum.ofInt_exact _ h

theorem JSNum.gt_one (v : Int) : (JSNum.int v).gt (.int 1) = decide (v > 1) := rfl

/-! ## The built-in functions on known inputs -/

theorem decodeURIComponent_examples :
    decodeURIComponent (utf16 "a%20b%C3%A9%E2%82%AC%F0%9F%98%80")
      = .ok [97, 32, 98, 233, 8364, 55357, 56832] ∧
    decodeURIComponent (utf16 "%C0%80") = .error .uriError ∧
    decodeURIComponent (utf16 "%ED%A0%80") = .error .uriError ∧
    decodeURIComponent (utf16 "%4") = .error .uriError ∧
    decodeURIComponent (utf16 "100%") = .error .uriError := by
  refine ⟨by decide, by decide, by decide, by decide, by decide⟩

theorem split_examples :
    split 59 (utf16 "a;b;;c;") = [[97], [98], [], [99], []] ∧
    split 59 [] = [[]] := by
  refine ⟨by decide, by decide⟩

theorem trim_examples :
    trim (utf16 " \t a b \n") = utf16 "a b" ∧ trim (utf16 "   ") = [] := by
  refine ⟨by decide, by decide⟩

theorem parseInt_examples :
    parseInt (utf16 "42") = .int 42 ∧
    parseInt (utf16 "  -12px") = .int (-12) ∧
    parseInt (utf16 "0x1F") = .int 31 ∧
    parseInt (utf16 "1.9") = .int 1 ∧
    parseInt (utf16 "1e+21") = .int 1 ∧
    parseInt (utf16 "-0") = .negZero ∧
    parseInt (utf16 "") = .nan ∧
    parseInt (utf16 "abc") = .nan ∧
    parseInt (utf16 "9007199254740993") = .int 9007199254740992 := by
  refine ⟨by decide, by decide, by decide, by decide, by decide, by decide, by decide,
    by decide, by decide⟩

theorem numberToString_examples :
    numberToString (.int 42) = utf16 "42" ∧
    numberToString (.int (-7)) = utf16 "-7" ∧
    numberToString .negZero = utf16 "0" ∧
    numberToString (.int (2 ^ 53)) = utf16 "9007199254740992" ∧
    numberToString (.int (2 ^ 60)) = utf16 "1152921504606847000" ∧
    numberToString (.int (2 ^ 70)) = utf16 "1.1805916207174113e+21" ∧
    numberToString (JSNum.ofInt (10 ^ 21)) = utf16 "1e+21" ∧
    numberToString (JSNum.ofInt (10 ^ 23)) = utf16 "1e+23" := by
  refine ⟨by decide, by decide, by decide, by decide, by decide, by decide, by decide,
    by decide⟩

theorem number_examples :
    (JSNum.int (2 ^ 53)).add (.int 1) = .int (2 ^ 53) ∧
    (JSNum.int (2 ^ 53 - 1)).add (.int 1) = .int (2 ^ 53) ∧
    (JSNum.int 1).sub (.int 1) = .int 0 ∧
    JSNum.nan.add (.int 1) = .nan ∧
    JSNum.nan.gt (.int 1) = false ∧
    JSNum.nan.orElse (.int 0) = .int 0 ∧
    JSNum.negZero.orElse (.int 0) = .int 0 := by
  refine ⟨by decide, by decide, by decide, by decide, by decide, by decide, by decide⟩

/-! ## Rounding to a double, in general -/

theorem overflowBound_eq : overflowBound = 2 ^ 53 * 2 ^ 971 := by
  unfold overflowBound
  have h16 : (16 : Nat) = 2 ^ 4 := by norm_num
  rw [h16, ← pow_mul, ← pow_add]

theorem extraBits_upper (fuel : Nat) :
    ∀ m : Nat, m < 2 ^ 53 * 2 ^ fuel → m < 2 ^ 53 * 2 ^ extraBits fuel m := by
  induction fuel with
  | zero => intro m h; simpa [extraBits] using h
  | succ fuel ih =>
    intro m h
    unfold extraBits
    split_ifs with hm
    · simpa using hm
    · have e1 : (2 : Nat) ^ (fuel + 1) = 2 ^ fuel * 2 := pow_succ 2 fuel
      have e2 : (2 : Nat) ^ (extraBits fuel (m / 2) + 1) = 2 ^ extraBits fuel (m / 2) * 2 :=
        pow_succ 2 _
      have hhalf : m / 2 < 2 ^ 53 * 2 ^ fuel := by
        rw [Nat.div_lt_iff_lt_mul (by norm_num)]
        calc m < 2 ^ 53 * 2 ^ (fuel + 1) := h
          _ = 2 ^ 53 * 2 ^ fuel * 2 := by rw [e1, Nat.mul_assoc]
      have h2 := ih (m / 2) hhalf
      have hdiv : m < (m / 2 + 1) * 2 := by omega
      calc m < (m / 2 + 1) * 2 := hdiv
        _ ≤ 2 ^ 53 * 2 ^ extraBits fuel (m / 2) * 2 := Nat.mul_le_mul_right 2 h2
        _ = 2 ^ 53 * 2 ^ (extraBits fuel (m / 2) + 1) := by rw [e2, Nat.mul_assoc]

theorem extraBits_self_upper (m : Nat) : m < 2 ^ 53 * 2 ^ extraBits m m := by
  apply extraBits_upper
  calc m < 2 ^ m := Nat.lt_two_pow m
    _ = 1 * 2 ^ m := (Nat.one_mul _).symm
    _ ≤ 2 ^ 53 * 2 ^ m := Nat.mul_le_mul_right _ (Nat.one_le_two_pow)

/-- The shape of a rounded number of at least 54 bits: a significand `q` of
53 bits, possibly rounded up to `2 ^ 53`, times the power of two `2 ^ s` that
the number exceeds 53 bits by. -/
theorem roundToDouble_shape (m : Nat) (h : 2 ^ 53 ≤ m) :
    ∃ s q : Nat, 1 ≤ s ∧ 2 ^ 52 * 2 ^ s ≤ m ∧ m < 2 ^ 53 * 2 ^ s ∧
      2 ^ 52 ≤ m / 2 ^ s ∧ m / 2 ^ s < 2 ^ 53 ∧
      roundToDouble m = q * 2 ^ s ∧
      (q = m / 2 ^ s ∨ (q = m / 2 ^ s + 1 ∧ 2 ^ (s - 1) ≤ m % 2 ^ s)) := by
  have hlo : 2 ^ 52 * 2 ^ extraBits m m ≤ m := by
    have := extraBits_spec m m (le_trans (by norm_num) h)
    rwa [Nat.mul_comm] at this
  have hhi := extraBits_self_upper m
  have hpos := extraBits_pos m h
  have hq1 : 2 ^ 52 ≤ m / 2 ^ extraBits m m := by
    rw [Nat.le_div_iff_mul_le (by positivity)]
    exact hlo
  have hq2 : m / 2 ^ extraBits m m < 2 ^ 53 := by
    rw [Nat.div_lt_iff_lt_mul (by positivity)]
    exact hhi
  refine ⟨extraBits m m, ?_⟩
  unfold roundToDouble
  rw [if_neg (Nat.not_lt.2 h)]
  simp only
  split_ifs with h1 h2 h3
  · exact ⟨_, hpos, hlo, hhi, hq1, hq2, rfl, Or.inl rfl⟩
  · exact ⟨_, hpos, hlo, hhi, hq1, hq2, rfl, Or.inl rfl⟩
  · exact ⟨_, hpos, hlo, hhi, hq1, hq2, rfl, Or.inr ⟨rfl, le_of_eq h2.symm⟩⟩
  · exact ⟨_, hpos, hlo, hhi, hq1, hq2, rfl, Or.inr ⟨rfl, Nat.le_of_not_lt h1⟩⟩

theorem roundToDouble_pos (m : Nat) (h : 1 ≤ m) : 1 ≤ roundToDouble m := by
  by_cases hs : m < 2 ^ 53
  · rw [roundToDouble_small m hs]; exact h
  · exact le_trans (by norm_num) (roundToDouble_large m (Nat.le_of_not_lt hs))

/-- A rounded number below `2 ^ (53 + e)` is at most `(2 ^ 53 - 1) * 2 ^ e`;
with `e = 971` this is the largest finite double. -/
theorem roundToDouble_le_max (e m : Nat) (h : roundToDouble m < 2 ^ 53 * 2 ^ e) :
    roundToDouble m ≤ (2 ^ 53 - 1) * 2 ^ e := by
  by_cases hs : m < 2 ^ 53
  · rw [roundToDouble_small m hs]
    calc m ≤ (2 ^ 53 - 1) * 1 := by rw [Nat.mul_one]; exact Nat.le_sub_one_of_lt hs
      _ ≤ (2 ^ 53 - 1) * 2 ^ e := Nat.mul_le_mul_left _ Nat.one_le_two_pow
  · obtain ⟨s, q, hs1, hlo, hhi, hq1, hq2, hr, hq⟩ :=
      roundToDouble_shape m (Nat.le_of_not_lt hs)
    have hq3 : 2 ^ 52 ≤ q ∧ q ≤ 2 ^ 53 := by
      rcases hq with rfl | ⟨rfl, _⟩ <;> omega
    rw [hr] at h ⊢
    rcases Nat.lt_trichotomy s e with hlt | heq | hgt
    · have hpow : 2 ^ s * 2 ≤ 2 ^ e := by
        rw [← pow_succ]
        exact Nat.pow_le_pow_right (by norm_num) (by omega)
      calc q * 2 ^ s ≤ 2 ^ 53 * 2 ^ s := Nat.mul_le_mul_right _ hq3.2
        _ = 2 ^ 52 * (2 ^ s * 2) := by ring
        _ ≤ 2 ^ 52 * 2 ^ e := Nat.mul_le_mul_left _ hpow
        _ ≤ (2 ^ 53 - 1) * 2 ^ e := Nat.mul_le_mul_right _ (by norm_num)
    · subst heq
      have : q < 2 ^ 53 := Nat.lt_of_mul_lt_mul_right h
      exact Nat.mul_le_mul_right _ (by omega)
    · exfalso
      have hpow : 2 ^ e * 2 ≤ 2 ^ s := by
        rw [← pow_succ]
        exact Nat.pow_le_pow_right (by norm_num) (by omega)
      have : 2 ^ 53 * 2 ^ e ≤ q * 2 ^ s :=
        calc 2 ^ 53 * 2 ^ e = 2 ^ 52 * (2 ^ e * 2) := by ring
          _ ≤ 2 ^ 52 * 2 ^ s := Nat.mul_le_mul_left _ hpow
          _ ≤ q * 2 ^ s := Nat.mul_le_mul_right _ hq3.1
      exact absurd h (Nat.not_lt.2 this)

/-- A number that is less than half a step `2 ^ e` above
`(2 ^ 53 - 1) * 2 ^ e'`, where `e' = e + 1`, rounds below `2 ^ (53 + e')`; with
`e = 970` these are the numbers that round to a finite double. -/
theorem roundToDouble_lt_overflow (e e' x : Nat) (he : e' = e + 1)
    (h : x + 2 ^ e < 2 ^ 53 * 2 ^ e') :
    roundToDouble x < 2 ^ 53 * 2 ^ e' := by
  subst he
  by_cases hs : x < 2 ^ 53
  · rw [roundToDouble_small x hs]
    calc x < 2 ^ 53 * 1 := by rw [Nat.mul_one]; exact hs
      _ ≤ 2 ^ 53 * 2 ^ (e + 1) := Nat.mul_le_mul_left _ Nat.one_le_two_pow
  · obtain ⟨s, q, hs1, hlo, hhi, hq1, hq2, hr, hq⟩ :=
      roundToDouble_shape x (Nat.le_of_not_lt hs)
    rw [hr]
    have hse : s ≤ e + 1 := by
      by_contra hgt
      have hpow : 2 ^ (e + 1) * 2 ≤ 2 ^ s := by
        rw [← pow_succ]
        exact Nat.pow_le_pow_right (by norm_num) (by omega)
      have : 2 ^ 53 * 2 ^ (e + 1) ≤ x :=
        calc 2 ^ 53 * 2 ^ (e + 1) = 2 ^ 52 * (2 ^ (e + 1) * 2) := by ring
          _ ≤ 2 ^ 52 * 2 ^ s := Nat.mul_le_mul_left _ hpow
          _ ≤ x := hlo
      exact absurd (lt_of_le_of_lt (Nat.le_add_right x _) h) (Nat.not_lt.2 this)
    rcases Nat.lt_or_eq_of_le hse with hlt | heq
    · have hq3 : q ≤ 2 ^ 53 := by
        rcases hq with rfl | ⟨rfl, _⟩ <;> omega
      have hpow : 2 ^ s * 2 ≤ 2 ^ (e + 1) := by
        rw [← pow_succ]
        exact Nat.pow_le_pow_right (by norm_num) (by omega)
      have hpos : 0 < 2 ^ 52 * 2 ^ (e + 1) := by positivity
      calc q * 2 ^ s ≤ 2 ^ 53 * 2 ^ s := Nat.mul_le_mul_right _ hq3
        _ = 2 ^ 52 * (2 ^ s * 2) := by ring
        _ ≤ 2 ^ 52 * 2 ^ (e + 1) := Nat.mul_le_mul_left _ hpow
        _ < 2 ^ 52 * 2 ^ (e + 1) + 2 ^ 52 * 2 ^ (e + 1) := Nat.lt_add_of_pos_right hpos
        _ = 2 ^ 53 * 2 ^ (e + 1) := by ring
    · subst heq
      rcases hq with rfl | ⟨rfl, hhalf⟩
      · exact Nat.mul_lt_mul_of_pos_right hq2 (by positivity)
      · have hsplit : x / 2 ^ (e + 1) * 2 ^ (e + 1) + x % 2 ^ (e + 1) = x := by
          rw [Nat.mul_comm]; exact Nat.div_add_mod x (2 ^ (e + 1))
        have hdouble : (2 : Nat) ^ (e + 1) = 2 ^ e + 2 ^ e := by
          rw [pow_succ]; ring
        have hhalf' : 2 ^ e ≤ x % 2 ^ (e + 1) := hhalf
        have : (x / 2 ^ (e + 1) + 1) * 2 ^ (e + 1)
            = x / 2 ^ (e + 1) * 2 ^ (e + 1) + 2 ^ (e + 1) := by ring
        rw [this]
        generalize x / 2 ^ (e + 1) * 2 ^ (e + 1) = a at hsplit ⊢
        generalize x % 2 ^ (e + 1) = r at hsplit hhalf'
        generalize (2 : Nat) ^ (e + 1) = b at h hdouble ⊢
        generalize (2 : Nat) ^ e = c at h hdouble hhalf'
        omega

theorem JSNum.ofInt_natCast (x : Nat) (h : roundToDouble x < 2 ^ 53 * 2 ^ 971) :
    JSNum.ofInt (x : Int) = .int (roundToDouble x) := by
  unfold JSNum.ofInt
  simp only [Int.natAbs_ofNat]
  rw [overflowBound_eq, if_neg (Nat.not_le.2 h)]
  have : ¬ ((x : Int) < 0) := by omega
  rw [if_neg this]

theorem JSNum.ofInt_int_bound (i v : Int) (h : JSNum.ofInt i = .int v) :
    v.natAbs ≤ (2 ^ 53 - 1) * 2 ^ 971 := by
  unfold JSNum.ofInt at h
  simp only at h
  rw [overflowBound_eq] at h
  split_ifs at h with hover hneg hneg
  · have hv : v = - (roundToDouble i.natAbs : Int) := by
      injection h with h; exact h.symm
    rw [hv, Int.natAbs_neg, Int.natAbs_ofNat]
    exact roundToDouble_le_max 971 _ (Nat.lt_of_not_le hover)
  · have hv : v = (roundToDouble i.natAbs : Int) := by
      injection h with h; exact h.symm
    rw [hv, Int.natAbs_ofNat]
    exact roundToDouble_le_max 971 _ (Nat.lt_of_not_le hover)

theorem parseInt_int_bound (s : JSString) (v : Int) (h : parseInt s = .int v) :
    v.natAbs ≤ (2 ^ 53 - 1) * 2 ^ 971 := by
  unfold parseInt at h
  simp only at h
  split_ifs at h
  all_goals first
    | exact JSNum.ofInt_int_bound _ v h
    | (have hv : v = 0 := by injection h with h; exact h.symm
       rw [hv]
       exact Nat.zero_le _)

/-! ## What `parseInt` reads in the text of a number -/

theorem parseInt_decimal_any (c : Nat) (hc : 1 ≤ c) : parseInt (decimal c) = JSNum.ofInt c := by
  have hd := decimal_digits c
  have hne := decimal_ne_nil c
  obtain ⟨hpre, hlead⟩ := parseInt_digits (decimal c) hne hd
  have htrim : trimStart (decimal c) = decimal c := by
    unfold trimStart
    cases hs : decimal c with
    | nil => rfl
    | cons x rest =>
      have hx : isWhiteSpace x = false :=
        isWhiteSpace_digit x (hd x (by rw [hs]; exact List.mem_cons_self _ _))
      simp [List.dropWhile, hx]
  have hsign : stripSign (decimal c) = (false, decimal c) := by
    cases hs : decimal c with
    | nil => rfl
    | cons x rest =>
      have hx := hd x (by rw [hs]; exact List.mem_cons_self _ _)
      unfold stripSign
      split
      · rename_i heq; cases heq; omega
      · rename_i heq; cases heq; omega
      · rfl
  have hval : digitsValue 10 (leadingDigits 10 (decimal c)) = c := by
    rw [leadingDigits_of_digits _ hd]
    exact digitsValue_decimalFuel (c + 1) c (Nat.lt_succ_self c)
  unfold parseInt
  simp only [htrim, hsign, hpre, if_neg hlead, hval]
  rw [if_neg (by omega)]
  simp only [Bool.false_eq_true, if_false]

theorem decimalFuel_length_ge (fuel : Nat) :
    ∀ n k : Nat, n < fuel → 10 ^ k ≤ n → k + 1 ≤ (decimalFuel fuel n).length := by
  induction fuel with
  | zero => intro n k h; omega
  | succ fuel ih =>
    intro n k hlt hk
    unfold decimalFuel
    split_ifs with h10
    · cases k with
      | zero => simp
      | succ k =>
        have : 10 ≤ 10 ^ (k + 1) := by
          calc 10 = 10 ^ 1 := by norm_num
            _ ≤ 10 ^ (k + 1) := Nat.pow_le_pow_right (by norm_num) (by omega)
        omega
    · rw [List.length_append, List.length_singleton]
      cases k with
      | zero => omega
      | succ k =>
        have hdiv : 10 ^ k ≤ n / 10 := by
          rw [Nat.le_div_iff_mul_le (by norm_num)]
          calc 10 ^ k * 10 = 10 ^ (k + 1) := (pow_succ 10 k).symm
            _ ≤ n := hk
        have := ih (n / 10) k (by omega) hdiv
        omega

theorem lt_of_decimal_length (c k : Nat) (h : (decimal c).length ≤ k) : c < 10 ^ k := by
  by_contra hge
  have := decimalFuel_length_ge (c + 1) c k (Nat.lt_succ_self c) (Nat.le_of_not_lt hge)
  unfold decimal at h
  omega

theorem decimalFuel_head (fuel : Nat) :
    ∀ n : Nat, n < fuel → 1 ≤ n →
      ∃ d rest, decimalFuel fuel n = d :: rest ∧ 49 ≤ d ∧ d ≤ 57 := by
  induction fuel with
  | zero => intro n h; omega
  | succ fuel ih =>
    intro n hlt hpos
    unfold decimalFuel
    split_ifs with h10
    · exact ⟨48 + n, [], rfl, by omega, by omega⟩
    · obtain ⟨d, rest, hd, h1, h2⟩ := ih (n / 10) (by omega) (by omega)
      exact ⟨d, rest ++ [48 + n % 10], by rw [hd]; rfl, h1, h2⟩

theorem decimal_head (n : Nat) (h : 1 ≤ n) :
    ∃ d rest, decimal n = d :: rest ∧ 49 ≤ d ∧ d ≤ 57 :=
  decimalFuel_head (n + 1) n (Nat.lt_succ_self n) h

theorem stripZeros_pos (fuel : Nat) : ∀ c : Nat, 1 ≤ c → 1 ≤ stripZeros fuel c := by
  induction fuel with
  | zero => intro c h; exact h
  | succ fuel ih =>
    intro c h
    unfold stripZeros
    split_ifs with hz
    · exact ih (c / 10) (by omega)
    · exact h

theorem shortestFrom_pos (m n : Nat) (hm : 1 ≤ m) (ks : List Nat) :
    1 ≤ shortestFrom m n ks := by
  induction ks with
  | nil => exact hm
  | cons k ks ih =>
    have hhi : 1 ≤ (candidates m n k).2 := by
      unfold candidates
      simp only
      exact Nat.mul_pos (Nat.succ_pos _) (by positivity)
    unfold shortestFrom
    simp only [decide_eq_true_eq]
    split_ifs with h1 h2 h3 h4
    · exact Nat.pos_of_ne_zero h1.1.1
    · exact hhi
    · exact Nat.pos_of_ne_zero h3.1
    · exact hhi
    · exact ih

theorem shortest_pos (m : Nat) (hm : 1 ≤ m) : 1 ≤ shortest m :=
  shortestFrom_pos m _ hm _

/-- In a text that starts with a digit from 1 to 9 followed by `.` or `e`,
`parseInt` reads that digit. -/
theorem parseInt_leading_digit (d x : Nat) (rest : JSString)
    (hd : 49 ≤ d ∧ d ≤ 57) (hx : x = 46 ∨ x = 101) :
    parseInt (d :: x :: rest) = .int ((d - 48 : Nat) : Int) := by
  have hw : isWhiteSpace d = false := isWhiteSpace_digit d ⟨by omega, hd.2⟩
  have htrim : trimStart (d :: x :: rest) = d :: x :: rest := by
    unfold trimStart
    simp [List.dropWhile, hw]
  have hsign : stripSign (d :: x :: rest) = (false, d :: x :: rest) := by
    unfold stripSign
    split
    · rename_i heq; cases heq; omega
    · rename_i heq; cases heq; omega
    · rfl
  have hpre : stripRadixPrefix (d :: x :: rest) = (10, d :: x :: rest) := by
    unfold stripRadixPrefix
    split
    · rename_i heq; cases heq; omega
    · rename_i heq; cases heq; omega
    · rfl
  have hdv : digitValue 10 d = some (d - 48) := by
    unfold digitValue
    simp [hd.2, show 48 ≤ d by omega]
  have hxv : digitValue 10 x = none := by
    unfold digitValue
    rcases hx with rfl | rfl <;> simp
  have hlead : leadingDigits 10 (d :: x :: rest) = [d - 48] := by
    simp [leadingDigits, hdv, hxv]
  unfold parseInt
  simp only [htrim, hsign, hpre, hlead]
  have hne : ([d - 48] : List Nat) ≠ [] := by simp
  rw [if_neg hne]
  have hval : digitsValue 10 [d - 48] = d - 48 := by simp [digitsValue]
  rw [hval, if_neg (by omega)]
  simp only [Bool.false_eq_true, if_false]
  exact JSNum.ofInt_exact _ (by simp; omega)

theorem small_lt_overflow (e e' c : Nat) (he : e' = e + 1) (h70 : 70 ≤ e) (h : c < 10 ^ 21) :
    c + 2 ^ e < 2 ^ 53 * 2 ^ e' := by
  subst he
  have h1 : (10 : Nat) ^ 21 ≤ 2 ^ 70 := by norm_num
  have h2 : (2 : Nat) ^ 70 ≤ 2 ^ e := Nat.pow_le_pow_right (by norm_num) h70
  have h3 : (2 : Nat) ^ (e + 1) = 2 ^ e + 2 ^ e := by rw [pow_succ]; ring
  have h4 : 1 * 2 ^ (e + 1) ≤ 2 ^ 53 * 2 ^ (e + 1) :=
    Nat.mul_le_mul_right _ (by norm_num)
  rw [Nat.one_mul] at h4
  generalize (2 : Nat) ^ 53 * 2 ^ (e + 1) = t at h4 ⊢
  generalize (2 : Nat) ^ (e + 1) = b at h3 h4
  generalize (2 : Nat) ^ e = a at h2 h3 ⊢
  omega

/-- The text that `Number::toString` lays out for a positive numeral is read
by `parseInt` as an integer that is at least 1. -/
theorem layout_reads (c : Nat) (hc : 1 ≤ c) :
    ∃ w : Int, parseInt (layout c) = .int w ∧ 1 ≤ w := by
  unfold layout
  simp only
  split_ifs with hlen
  · have hlt := lt_of_decimal_length c 21 hlen
    have hfin := roundToDouble_lt_overflow 970 971 c rfl
      (small_lt_overflow 970 971 c rfl (by norm_num) hlt)
    rw [parseInt_decimal_any c hc, JSNum.ofInt_natCast c hfin]
    exact ⟨_, rfl, by exact_mod_cast roundToDouble_pos c hc⟩
  · obtain ⟨d, rest, hdec, hd1, hd2⟩ :=
      decimal_head (stripZeros (decimal c).length c) (stripZeros_pos _ c hc)
    rw [hdec]
    cases rest with
    | nil =>
      simp only
      rw [parseInt_leading_digit d 101 _ ⟨hd1, hd2⟩ (Or.inr rfl)]
      exact ⟨_, rfl, by omega⟩
    | cons r rs =>
      simp only
      rw [parseInt_leading_digit d 46 _ ⟨hd1, hd2⟩ (Or.inl rfl)]
      exact ⟨_, rfl, by omega⟩

/-- The text of a finite Number that is at least 1 is read by `parseInt` as
an integer that is at least 1. -/
theorem numberToString_reads (r : Nat) (hr : 1 ≤ r) :
    ∃ w : Int, parseInt (numberToString (.int r)) = .int w ∧ 1 ≤ w := by
  have hne : (r : Int) ≠ 0 := by omega
  have hnn : ¬ ((r : Int) < 0) := by omega
  simp only [numberToString]
  rw [if_neg hne, if_neg hnn, Int.natAbs_ofNat]
  exact layout_reads _ (shortest_pos r hr)

theorem max_succ_lt_overflow (e e' x : Nat) (he : e' = e + 1) (h1 : 1 ≤ e)
    (h : x ≤ (2 ^ 53 - 1) * 2 ^ e' + 1) :
    x + 2 ^ e < 2 ^ 53 * 2 ^ e' := by
  subst he
  have h3 : (2 : Nat) ^ (e + 1) = 2 ^ e + 2 ^ e := by rw [pow_succ]; ring
  have h5 : 2 ≤ (2 : Nat) ^ e :=
    calc 2 = 2 ^ 1 := by norm_num
      _ ≤ 2 ^ e := Nat.pow_le_pow_right (by norm_num) h1
  have h6 : (2 ^ 53 - 1) * 2 ^ (e + 1) + 2 ^ (e + 1) = 2 ^ 53 * 2 ^ (e + 1) := by
    have : (2 : Nat) ^ 53 = (2 ^ 53 - 1) + 1 := by norm_num
    calc (2 ^ 53 - 1) * 2 ^ (e + 1) + 2 ^ (e + 1)
        = ((2 ^ 53 - 1) + 1) * 2 ^ (e + 1) := by ring
      _ = 2 ^ 53 * 2 ^ (e + 1) := by rw [← this]
  generalize (2 : Nat) ^ 53 * 2 ^ (e + 1) = t at h6 ⊢
  generalize (2 ^ 53 - 1) * (2 : Nat) ^ (e + 1) = m at h h6
  generalize (2 : Nat) ^ (e + 1) = b at h3 h6
  generalize (2 : Nat) ^ e = a at h3 h5 ⊢
  omega

/-- Adding 1 to a held integer that is at least 1 writes a text that holds an
integer that is at least 1. -/
theorem add_one_reads (value : JSString) (v : Int) (hv : parseInt value = .int v)
    (h1 : 1 ≤ v) :
    ∃ w : Int, parseInt (numberToString ((parseInt value).add (.int 1))) = .int w ∧ 1 ≤ w := by
  have hbound := parseInt_int_bound value v hv
  rw [hv]
  show ∃ w : Int, parseInt (numberToString (JSNum.ofInt (v + 1))) = .int w ∧ 1 ≤ w
  have hcast : v + 1 = ((v.natAbs + 1 : Nat) : Int) := by
    clear hbound
    omega
  have hle : v.natAbs + 1 ≤ (2 ^ 53 - 1) * 2 ^ 971 + 1 := Nat.add_le_add_right hbound 1
  have hfin := roundToDouble_lt_overflow 970 971 (v.natAbs + 1) rfl
    (max_succ_lt_overflow 970 971 _ rfl (by norm_num) hle)
  rw [hcast, JSNum.ofInt_natCast _ hfin]
  exact numberToString_reads _ (roundToDouble_pos _ (by clear hbound hle hfin; omega))

/-- Subtracting 1 from a held integer above 1 writes a text that holds an
integer that is at least 1. -/
theorem sub_one_reads (value : JSString) (v : Int) (hv : parseInt value = .int v)
    (h1 : 1 < v) :
    ∃ w : Int, parseInt (numberToString ((parseInt value).sub (.int 1))) = .int w ∧ 1 ≤ w := by
  have hbound := parseInt_int_bound value v hv
  rw [hv]
  show ∃ w : Int, parseInt (numberToString (JSNum.ofInt (v + -1))) = .int w ∧ 1 ≤ w
  have hcast : v + -1 = ((v.natAbs - 1 : Nat) : Int) := by
    clear hbound
    omega
  have hle : v.natAbs - 1 ≤ (2 ^ 53 - 1) * 2 ^ 971 + 1 :=
    le_trans (Nat.sub_le _ _) (le_trans hbound (Nat.le_add_right _ 1))
  have hfin := roundToDouble_lt_overflow 970 971 (v.natAbs - 1) rfl
    (max_succ_lt_overflow 970 971 _ rfl (by norm_num) hle)
  rw [hcast, JSNum.ofInt_natCast _ hfin]
  exact numberToString_reads _ (roundToDouble_pos _ (by clear hbound hle hfin; omega))

/-! ## Form validation -/

theorem validateInput_eq (b : Bool) (form : List Input) (i : Nat) :
    validateInput (b, form) i =
      match form[i]? with
      | none => (b, form)
      | some input => (b && !isBlank input.value, form.set i (marked input)) := by
  unfold validateInput
  cases h : form[i]? with
  | none => simp [h]
  | some input =>
    simp only [h]
    by_cases hb : trim input.value = []
    · simp [hb, isBlank, marked]
    · simp [hb, isBlank, marked]

theorem marked_marked (input : Input) : marked (marked input) = marked input := by
  simp [marked]

theorem marked_value (input : Input) : (marked input).value = input.value := rfl

theorem marked_required (input : Input) : (marked input).required = input.required := rfl

/-- The form after the loop has visited the positions `l`: every input at a
visited position is marked, the others are as before. -/
theorem foldl_validateInput_form (l : List Nat) :
    ∀ (b : Bool) (form : List Input) (j : Nat),
      ((l.foldl validateInput (b, form)).2)[j]? =
        (form[j]?).map (fun x => if j ∈ l then marked x else x) := by
  induction l with
  | nil =>
    intro b form j
    simp only [List.foldl_nil, List.not_mem_nil, if_false]
    cases form[j]? <;> rfl
  | cons i l ih =>
    intro b form j
    rw [List.foldl_cons, validateInput_eq]
    cases hi : form[i]? with
    | none =>
      simp only [hi]
      rw [ih]
      by_cases hji : j = i
      · subst hji; simp [hi]
      · cases form[j]? <;> simp [hji]
    | some x =>
      simp only [hi]
      rw [ih]
      have hlt : i < form.length := by
        rcases List.getElem?_eq_some_iff.1 hi with ⟨h, _⟩
        exact h
      by_cases hji : j = i
      · subst hji
        rw [List.getElem?_set_self hlt, hi]
        by_cases hm : j ∈ l
        · simp [hm, marked_marked]
        · simp [hm]
      · rw [List.getElem?_set_ne (Ne.symm hji)]
        cases form[j]? <;> simp [hji]

/-- The variable `isValid` after the loop has visited the positions `l`. -/
theorem foldl_validateInput_valid (l : List Nat) :
    ∀ (b : Bool) (form : List Input),
      (l.foldl validateInput (b, form)).1 = (b && l.all (filledAt form)) := by
  induction l with
  | nil => intro b form; simp
  | cons i l ih =>
    intro b form
    rw [List.foldl_cons, validateInput_eq]
    cases hi : form[i]? with
    | none =>
      simp only [hi]
      rw [ih]
      simp [filledAt, hi]
    | some x =>
      simp only [hi]
      rw [ih]
      have hlt : i < form.length := by
        rcases List.getElem?_eq_some_iff.1 hi with ⟨h, _⟩
        exact h
      have hsame : filledAt (form.set i (marked x)) = filledAt form := by
        funext k
        unfold filledAt
        by_cases hki : k = i
        · subst hki
          rw [List.getElem?_set_self hlt, hi]
          rfl
        · rw [List.getElem?_set_ne (Ne.symm hki)]
      rw [hsame, List.all_cons, Bool.and_assoc]
      simp [filledAt, hi]

theorem mem_requiredInputs (form : List Input) (i : Nat) :
    i ∈ requiredInputs form ↔ ∃ x, form[i]? = some x ∧ x.required = true := by
  unfold requiredInputs
  rw [List.mem_filter, List.mem_range]
  constructor
  · rintro ⟨hlt, h⟩
    refine ⟨form[i], ?_, ?_⟩
    · exact List.getElem?_eq_getElem hlt
    · simpa [List.getElem?_eq_getElem hlt] using h
  · rintro ⟨x, hx, hr⟩
    rcases List.getElem?_eq_some_iff.1 hx with ⟨hlt, _⟩
    exact ⟨hlt, by simp [hx, hr]⟩

theorem validateForm_valid_iff (form : List Input) :
    (validateForm form).1 = true ↔
      ∀ input ∈ form, input.required = true → isBlank input.value = false := by
  unfold validateForm
  rw [foldl_validateInput_valid]
  simp only [Bool.true_and, List.all_eq_true]
  constructor
  · intro h input hmem hreq
    rcases List.getElem?_of_mem hmem with ⟨i, hi⟩
    have := h i ((mem_requiredInputs form i).2 ⟨input, hi, hreq⟩)
    simpa [filledAt, hi] using this
  · intro h i hi
    rcases (mem_requiredInputs form i).1 hi with ⟨x, hx, hreq⟩
    have hmem : x ∈ form := List.getElem?_mem hx
    simp [filledAt, hx, h x hmem hreq]

theorem validateForm_form (form : List Input) (i : Nat) :
    (validateForm form).2[i]? =
      (form[i]?).map (fun x => if x.required then marked x else x) := by
  unfold validateForm
  rw [foldl_validateInput_form]
  cases hi : form[i]? with
  | none => rfl
  | some x =>
    simp only [Option.map_some', Option.some.injEq]
    by_cases hreq : x.required = true
    · have : i ∈ requiredInputs form := (mem_requiredInputs form i).2 ⟨x, hi, hreq⟩
      simp [this, hreq]
    · have : i ∉ requiredInputs form := by
        intro hmem
        rcases (mem_requiredInputs form i).1 hmem with ⟨y, hy, hyr⟩
        rw [hi] at hy
        cases hy
        exact hreq hyr
      simp [this, hreq]

theorem isBlank_eq_false_iff (value : JSString) : isBlank value = false ↔ trim value ≠ [] := by
  simp [isBlank]

/-- C4: `validateForm` returns true exactly when every required input has a
value that is not empty after trimming, false exactly when some required input
is empty or white space only, true for a form without required inputs; and the
inputs without `required` do not influence the result (removing them leaves it
the same). -/
theorem validateForm_result (form : List Input) :
    ((validateForm form).1 = true ↔
      ∀ input ∈ form, input.required = true → trim input.value ≠ []) ∧
    ((validateForm form).1 = false ↔
      ∃ input ∈ form, input.required = true ∧ trim input.value = []) ∧
    ((∀ input ∈ form, input.required = false) → (validateForm form).1 = true) ∧
    (validateForm form).1 = (validateForm (form.filter (fun input => input.required))).1 := by
  have hiff : ∀ f : List Input, (validateForm f).1 = true ↔
      ∀ input ∈ f, input.required = true → trim input.value ≠ [] := by
    intro f
    rw [validateForm_valid_iff]
    constructor
    · intro h input hm hr
      exact (isBlank_eq_false_iff _).1 (h input hm hr)
    · intro h input hm hr
      exact (isBlank_eq_false_iff _).2 (h input hm hr)
  refine ⟨hiff form, ?_, ?_, ?_⟩
  · rw [← Bool.not_eq_true, hiff]
    constructor
    · intro h
      by_contra hne
      apply h
      intro input hm hr hblank
      exact hne ⟨input, hm, hr, hblank⟩
    · rintro ⟨input, hm, hr, hblank⟩ h
      exact h input hm hr hblank
  · intro hnone
    rw [hiff]
    intro input hm hr
    rw [hnone input hm] at hr
    cases hr
  · have h1 := hiff form
    have h2 := hiff (form.filter (fun input => input.required))
    have h3 : (∀ input ∈ form, input.required = true → trim input.value ≠ []) ↔
        (∀ input ∈ form.filter (fun input => input.required),
          input.required = true → trim input.value ≠ []) := by
      constructor
      · intro h input hm hr
        exact h input (List.mem_filter.1 hm).1 hr
      · intro h input hm hr
        exact h input (List.mem_filter.2 ⟨hm, hr⟩) hr
    have h4 : (validateForm form).1 = true ↔
        (validateForm (form.filter (fun input => input.required))).1 = true :=
      h1.trans (h3.trans h2.symm)
    cases hv : (validateForm form).1 <;>
      cases hw : (validateForm (form.filter (fun input => input.required))).1
    · rfl
    · rw [hv, hw] at h4
      exact absurd (h4.2 rfl) (by decide)
    · rw [hv, hw] at h4
      exact absurd (h4.1 rfl) (by decide)
    · rfl

/-- C4 on a form with one empty and one filled required input and an empty
optional one: the result is false; with both required inputs filled it is
true. -/
theorem validateForm_result_witness :
    (validateForm [⟨true, utf16 "  ", []⟩, ⟨true, utf16 "ann", []⟩, ⟨false, [], []⟩]).1 = false ∧
    (validateForm [⟨true, utf16 "bob", []⟩, ⟨true, utf16 "ann", []⟩, ⟨false, [], []⟩]).1 = true ∧
    (validateForm [⟨false, [], []⟩]).1 = true :=
  ⟨(validateForm_result _).2.1.2 ⟨⟨true, utf16 "  ", []⟩, by simp, rfl, by decide⟩,
   (validateForm_result _).1.2 (by decide),
   (validateForm_result [⟨false, [], []⟩]).2.2.1 (by decide)⟩

/-- C5: after `validateForm` every required input of the form, wherever it
stands, has the border colour `#dc3545` when its trimmed value is empty and
`#e1e5e9` otherwise (two different colours); every other input, and the value
and `required` attribute of every input, are as before. -/
theorem validateForm_marks (form : List Input) :
    (validateForm form).2 =
      form.map (fun input =>
        if input.required then
          { input with
            borderColor := if trim input.value = [] then utf16 "#dc3545" else utf16 "#e1e5e9" }
        else input) ∧
    utf16 "#dc3545" ≠ utf16 "#e1e5e9" := by
  refine ⟨?_, by decide⟩
  apply List.ext_getElem?
  intro i
  rw [validateForm_form, List.getElem?_map]
  cases form[i]? with
  | none => rfl
  | some x =>
    simp only [Option.map_some', Option.some.injEq]
    by_cases hreq : x.required = true
    · simp only [hreq, if_true, marked, isBlank, errorColor, neutralColor, decide_eq_true_eq]
    · simp [hreq]

/-! ## Password confirmation -/

theorem keystroke_keeps_fields (pg : SignupPage) (k : Keystroke)
    (h : pg.confirmPassword.isSome = true ∧ pg.password.isSome = true) :
    (k.apply pg).confirmPassword.isSome = true ∧ (k.apply pg).password.isSome = true := by
  rcases pg with ⟨cf, pf⟩
  cases cf with
  | none => simp at h
  | some cf =>
    cases pf with
    | none => simp at h
    | some pf => cases k <;> simp [Keystroke.apply, onConfirmInput]

theorem keystrokes_keep_fields (ks : List Keystroke) :
    ∀ pg : SignupPage, pg.confirmPassword.isSome = true ∧ pg.password.isSome = true →
      (ks.foldl Keystroke.apply pg).confirmPassword.isSome = true ∧
      (ks.foldl Keystroke.apply pg).password.isSome = true := by
  induction ks with
  | nil => intro pg h; exact h
  | cons k ks ih =>
    intro pg h
    rw [List.foldl_cons]
    exact ih _ (keystroke_keeps_fields pg k h)

/-- C9: with both fields on the page, the `input` listener of the
confirmation field sets its border colour to `#28a745` when its value equals
the value of `#password` exactly and to `#dc3545` otherwise, and changes
nothing else; and after any sequence of keystrokes that ends with one in the
confirmation field, the colour is the one given by the values the two fields
hold then, whatever came before. -/
theorem confirm_colour_reflects_equality (confirm password : Field) :
    onConfirmInput ⟨some confirm, some password⟩ =
      ⟨some { confirm with
              borderColor := if confirm.value = password.value then utf16 "#28a745"
                             else utf16 "#dc3545" },
       some password⟩ ∧
    utf16 "#28a745" ≠ utf16 "#dc3545" ∧
    ∀ (earlier : List Keystroke) (c : JSString),
      ∃ cf pf : Field,
        (earlier ++ [Keystroke.confirm c]).foldl Keystroke.apply ⟨some confirm, some password⟩
          = ⟨some cf, some pf⟩ ∧
        cf.value = c ∧
        cf.borderColor = if c = pf.value then utf16 "#28a745" else utf16 "#dc3545" := by
  refine ⟨?_, by decide, ?_⟩
  · by_cases h : confirm.value = password.value
    · simp [onConfirmInput, h, matchColor]
    · simp [onConfirmInput, h, errorColor]
  · intro earlier c
    rw [List.foldl_append]
    have hk := keystrokes_keep_fields earlier ⟨some confirm, some password⟩ ⟨rfl, rfl⟩
    generalize earlier.foldl Keystroke.apply ⟨some confirm, some password⟩ = pg at hk
    rcases pg with ⟨cf, pf⟩
    cases cf with
    | none => simp at hk
    | some cf =>
      cases pf with
      | none => simp at hk
      | some pf =>
        refine ⟨⟨c, if c = pf.value then matchColor else errorColor⟩, pf, ?_, rfl, rfl⟩
        by_cases h : c = pf.value
        · simp [Keystroke.apply, onConfirmInput, h]
        · simp [Keystroke.apply, onConfirmInput, h]

/-! ## The cart counter -/

theorem orElse_zero_add_one (n : JSNum) (k : Int) (hk : n.toInt? = some k)
    (hrange : (k + 1).natAbs ≤ 2 ^ 53) :
    numberToString ((n.orElse (.int 0)).add (.int 1)) = decimalInt (k + 1) := by
  have hor : n.orElse (.int 0) = .int k := by
    cases n with
    | nan => simp [JSNum.toInt?] at hk
    | posInf => simp [JSNum.toInt?] at hk
    | negInf => simp [JSNum.toInt?] at hk
    | negZero =>
      have : k = 0 := by simpa [JSNum.toInt?] using hk.symm
      subst this
      rfl
    | int i =>
      have : i = k := by simpa [JSNum.toInt?] using hk
      subst this
      unfold JSNum.orElse JSNum.truthy
      by_cases h0 : i = 0
      · subst h0; rfl
      · simp [h0]
  rw [hor, JSNum.add_one_exact k hrange, numberToString_int _ hrange]

theorem updateCartCount_exact (p : Page) (text : JSString) (k : Int)
    (htext : p.cartCount = some text) (hk : (parseInt text).toInt? = some k)
    (hlo : -(2 ^ 53) ≤ k) (hhi : k < 2 ^ 53) :
    updateCartCount p = { p with cartCount := some (decimalInt (k + 1)) } := by
  unfold updateCartCount
  rw [htext]
  simp only
  rw [orElse_zero_add_one _ k hk (by omega)]

/-- C8, as amended: `updateCartCount` turns a counter text that parses to an
integer `k` with `-2 ^ 53 ≤ k < 2 ^ 53` into the decimal text of `k + 1`, and a
text with no number to parse (empty or not numeric, `parseInt` gives NaN) into
`1`; with no `.cart-count` element the page is left as it is. Nothing else on
the page changes, and no exception is raised. -/
theorem updateCartCount_spec (p : Page) :
    (∀ (text : JSString) (k : Int), p.cartCount = some text →
      (parseInt text).toInt? = some k → -(2 ^ 53) ≤ k → k < 2 ^ 53 →
      updateCartCount p = { p with cartCount := some (decimalInt (k + 1)) }) ∧
    (∀ text : JSString, p.cartCount = some text → parseInt text = .nan →
      updateCartCount p = { p with cartCount := some (utf16 "1") }) ∧
    (p.cartCount = none → updateCartCount p = p) := by
  refine ⟨?_, ?_, ?_⟩
  · intro text k htext hk hlo hhi
    exact updateCartCount_exact p text k htext hk hlo hhi
  · intro text htext hnan
    unfold updateCartCount
    rw [htext]
    simp only
    rw [hnan]
    rfl
  · intro hnone
    unfold updateCartCount
    rw [hnone]

/-- C8, as amended, on a page whose counter shows `41`, one whose counter is
empty, and one without a counter. -/
theorem updateCartCount_spec_witness :
    updateCartCount ⟨some [], some (utf16 "41"), [], 0, 0, []⟩
      = ⟨some [], some (utf16 "42"), [], 0, 0, []⟩ ∧
    updateCartCount ⟨some [], some [], [], 0, 0, []⟩
      = ⟨some [], some (utf16 "1"), [], 0, 0, []⟩ ∧
    updateCartCount ⟨some [], none, [], 0, 0, []⟩ = ⟨some [], none, [], 0, 0, []⟩ :=
  ⟨(updateCartCount_spec ⟨some [], some (utf16 "41"), [], 0, 0, []⟩).1
      (utf16 "41") 41 rfl (by decide) (by decide) (by decide),
   (updateCartCount_spec ⟨some [], some [], [], 0, 0, []⟩).2.1 [] rfl (by decide),
   (updateCartCount_spec ⟨some [], none, [], 0, 0, []⟩).2.2 rfl⟩

/-- C8 as stated fails: the counter text `9007199254740992` parses to the
integer `2 ^ 53`, and `updateCartCount` writes the same text back, not the
decimal text of `2 ^ 53 + 1`. Below `-2 ^ 53` likewise: `-9007199254740994`
becomes `-9007199254740992`. -/
theorem updateCartCount_counterexample :
    (parseInt (utf16 "9007199254740992")).toInt? = some (2 ^ 53) ∧
    (updateCartCount ⟨some [], some (utf16 "9007199254740992"), [], 0, 0, []⟩).cartCount
      = some (utf16 "9007199254740992") ∧
    utf16 "9007199254740992" ≠ decimalInt (2 ^ 53 + 1) ∧
    (parseInt (utf16 "-9007199254740994")).toInt? = some (-(2 ^ 53) - 2) ∧
    (updateCartCount ⟨some [], some (utf16 "-9007199254740994"), [], 0, 0, []⟩).cartCount
      = some (utf16 "-9007199254740992") ∧
    utf16 "-9007199254740992" ≠ decimalInt (-(2 ^ 53) - 2 + 1) := by
  refine ⟨by decide, by decide, by decide, by decide, by decide, by decide⟩

/-! ## Quantity on the product page -/

theorem JSNum.int_of_toInt (n : JSNum) (v : Int) (h : n.toInt? = some v) (hv : v ≠ 0) :
    n = .int v := by
  cases n with
  | nan => simp [JSNum.toInt?] at h
  | posInf => simp [JSNum.toInt?] at h
  | negInf => simp [JSNum.toInt?] at h
  | negZero =>
    have : v = 0 := by simpa [JSNum.toInt?] using h.symm
    exact absurd this hv
  | int i =>
    have : i = v := by simpa [JSNum.toInt?] using h
    rw [this]

theorem JSNum.add_one_of_toInt (n : JSNum) (v : Int) (h : n.toInt? = some v)
    (hr : (v + 1).natAbs ≤ 2 ^ 53) : n.add (.int 1) = .int (v + 1) := by
  by_cases hv : v = 0
  · subst hv
    cases n with
    | nan => simp [JSNum.toInt?] at h
    | posInf => simp [JSNum.toInt?] at h
    | negInf => simp [JSNum.toInt?] at h
    | negZero => rfl
    | int i =>
      have : i = 0 := by simpa [JSNum.toInt?] using h
      subst this
      rfl
  · rw [JSNum.int_of_toInt n v h hv]
    exact JSNum.add_one_exact v hr

theorem JSNum.gt_one_of_toInt (n : JSNum) (v : Int) (h : n.toInt? = some v) :
    n.gt (.int 1) = decide (v > 1) := by
  by_cases hv : v = 0
  · subst hv
    cases n with
    | nan => simp [JSNum.toInt?] at h
    | posInf => simp [JSNum.toInt?] at h
    | negInf => simp [JSNum.toInt?] at h
    | negZero => rfl
    | int i =>
      have : i = 0 := by simpa [JSNum.toInt?] using h
      subst this
      rfl
  · rw [JSNum.int_of_toInt n v h hv]
    rfl

theorem increaseQuantity_exact (value : JSString) (v : Int)
    (hv : (parseInt value).toInt? = some v) (h : (v + 1).natAbs ≤ 2 ^ 53) :
    increaseQuantity (some value) = some (decimalInt (v + 1)) := by
  unfold increaseQuantity
  simp only
  rw [JSNum.add_one_of_toInt _ v hv h, numberToString_int _ h]

theorem decreaseQuantity_exact (value : JSString) (v : Int)
    (hv : (parseInt value).toInt? = some v) (h1 : 1 < v) (h : (v - 1).natAbs ≤ 2 ^ 53) :
    decreaseQuantity (some value) = some (decimalInt (v - 1)) := by
  have hint : parseInt value = .int v := JSNum.int_of_toInt _ v hv (by omega)
  unfold decreaseQuantity
  simp only
  rw [hint, JSNum.gt_one, if_pos (by simpa using h1), JSNum.sub_one_exact v h,
    numberToString_int _ h]

theorem decreaseQuantity_floor (value : JSString) (v : Int)
    (hv : (parseInt value).toInt? = some v) (h1 : v ≤ 1) :
    decreaseQuantity (some value) = some value := by
  unfold decreaseQuantity
  simp only
  rw [JSNum.gt_one_of_toInt _ v hv, if_neg (by simpa using h1)]

theorem toInt_decimalInt (i : Int) (h : i.natAbs ≤ 2 ^ 53) :
    (parseInt (decimalInt i)).toInt? = some i := by
  rw [parseInt_decimalInt i h]
  rfl

/-- A click on a field that holds an integer that is at least 1 leaves a
field that holds an integer that is at least 1. -/
theorem quantity_click_keeps_floor (q : Option JSString) (click : QuantityClick)
    (h : ∃ value v, q = some value ∧ parseInt value = .int v ∧ 1 ≤ v) :
    ∃ value v, click.apply q = some value ∧ parseInt value = .int v ∧ 1 ≤ v := by
  obtain ⟨value, v, rfl, hv, h1⟩ := h
  cases click with
  | increase =>
    obtain ⟨w, hw, hw1⟩ := add_one_reads value v hv h1
    exact ⟨_, w, rfl, hw, hw1⟩
  | decrease =>
    by_cases hgt : 1 < v
    · obtain ⟨w, hw, hw1⟩ := sub_one_reads value v hv hgt
      refine ⟨_, w, ?_, hw, hw1⟩
      show decreaseQuantity (some value) = _
      unfold decreaseQuantity
      simp only
      rw [hv, JSNum.gt_one, if_pos (by simpa using hgt)]
    · exact ⟨value, v, decreaseQuantity_floor value v (by rw [hv]; rfl) (by omega), hv, h1⟩

theorem quantity_clicks_keep_floor (clicks : List QuantityClick) :
    ∀ q : Option JSString,
      (∃ value v, q = some value ∧ parseInt value = .int v ∧ 1 ≤ v) →
      ∃ value v, clicks.foldl QuantityClick.apply q = some value ∧
        parseInt value = .int v ∧ 1 ≤ v := by
  induction clicks with
  | nil => intro q h; exact h
  | cons c cs ih =>
    intro q h
    rw [List.foldl_cons]
    exact ih _ (quantity_click_keeps_floor q c h)

/-- C6, as amended: when the `#quantity` field holds an integer `v ≥ 1`,
after any finite sequence of `increaseQuantity` and `decreaseQuantity` calls
it still holds an integer that is at least 1, for every `v`;
`decreaseQuantity` at 1 leaves the field as it is, at `1 < v ≤ 2 ^ 53` it
writes `v - 1`; `increaseQuantity` writes `v + 1` for every `v < 2 ^ 53`.
The field holds `v` when `Number.parseInt` reads its value as `v`; what is
written in those ranges is the decimal text of the new quantity, and the field
then holds that quantity. -/
theorem quantity_floor (value : JSString) (v : Int)
    (hv : (parseInt value).toInt? = some v) (h1 : 1 ≤ v) :
    (∀ clicks : List QuantityClick, ∃ value' v',
      clicks.foldl QuantityClick.apply (some value) = some value' ∧
      (parseInt value').toInt? = some v' ∧ 1 ≤ v') ∧
    (v = 1 → decreaseQuantity (some value) = some value) ∧
    (1 < v → v ≤ 2 ^ 53 → decreaseQuantity (some value) = some (decimalInt (v - 1)) ∧
      (parseInt (decimalInt (v - 1))).toInt? = some (v - 1)) ∧
    (v < 2 ^ 53 → increaseQuantity (some value) = some (decimalInt (v + 1)) ∧
      (parseInt (decimalInt (v + 1))).toInt? = some (v + 1)) := by
  have hint : parseInt value = .int v := JSNum.int_of_toInt _ v hv (by omega)
  refine ⟨?_, ?_, ?_, ?_⟩
  · intro clicks
    obtain ⟨value', v', hrun, hread, hge⟩ :=
      quantity_clicks_keep_floor clicks (some value) ⟨value, v, rfl, hint, h1⟩
    exact ⟨value', v', hrun, by rw [hread]; rfl, hge⟩
  · intro h
    exact decreaseQuantity_floor value v hv (by omega)
  · intro h hmax
    exact ⟨decreaseQuantity_exact value v hv h (by omega), toInt_decimalInt _ (by omega)⟩
  · intro h
    exact ⟨increaseQuantity_exact value v hv (by omega), toInt_decimalInt _ (by omega)⟩

/-- C6, as amended, on a field that holds `2`: one decrease gives `1`, an
increase gives `3`, and after three decreases the field still holds an
integer that is at least 1; so does a field that holds `2 ^ 53 + 2` after an
increase and a decrease. -/
theorem quantity_floor_witness :
    (parseInt (utf16 "2")).toInt? = some 2 ∧
    decreaseQuantity (some (utf16 "2")) = some (utf16 "1") ∧
    increaseQuantity (some (utf16 "2")) = some (utf16 "3") ∧
    (∃ value' v', [QuantityClick.decrease, .decrease, .decrease].foldl QuantityClick.apply
        (some (utf16 "2")) = some value' ∧
      (parseInt value').toInt? = some v' ∧ 1 ≤ v') ∧
    (∃ value' v', [QuantityClick.increase, .decrease].foldl QuantityClick.apply
        (some (utf16 "9007199254740994")) = some value' ∧
      (parseInt value').toInt? = some v' ∧ 1 ≤ v') :=
  have h := quantity_floor (utf16 "2") 2 (by decide) (by decide)
  have hbig := quantity_floor (utf16 "9007199254740994") (2 ^ 53 + 2) (by decide) (by decide)
  ⟨by decide, (h.2.2.1 (by decide) (by decide)).1, (h.2.2.2 (by decide)).1, h.1 _, hbig.1 _⟩

/-- C6 as stated fails: at `2 ^ 53` the field holds an integer at least 1, and
`increaseQuantity` leaves `9007199254740992` in it, not `2 ^ 53 + 1`; at
`2 ^ 53 + 2` `decreaseQuantity` writes `9007199254740992`, not
`2 ^ 53 + 1`. -/
theorem quantity_counterexample :
    parseInt (utf16 "9007199254740992") = .int (2 ^ 53) ∧
    increaseQuantity (some (utf16 "9007199254740992")) = some (utf16 "9007199254740992") ∧
    utf16 "9007199254740992" ≠ decimalInt (2 ^ 53 + 1) ∧
    parseInt (utf16 "9007199254740992") ≠ .int (2 ^ 53 + 1) ∧
    parseInt (utf16 "9007199254740994") = .int (2 ^ 53 + 2) ∧
    decreaseQuantity (some (utf16 "9007199254740994")) = some (utf16 "9007199254740992") := by
  refine ⟨by decide, by decide, by decide, by decide, by decide, by decide⟩

/-! ## Quantity in a cart row -/

/-- On a row with an input and an enclosing form, `increaseCartQuantity`
writes the text of the sum and submits the form once, with that text. -/
theorem increaseCartQuantity_submits (value : JSString) (submitted : List JSString) :
    increaseCartQuantity ⟨some value, true, submitted⟩ =
      ⟨⟨some (numberToString ((parseInt value).add (.int 1))), true,
        submitted ++ [numberToString ((parseInt value).add (.int 1))]⟩, none⟩ := rfl

/-- Above 1, `decreaseCartQuantity` writes the text of the difference and
submits the form once, with that text. -/
theorem decreaseCartQuantity_submits (value : JSString) (submitted : List JSString) (v : Int)
    (hv : (parseInt value).toInt? = some v) (h1 : 1 < v) :
    decreaseCartQuantity ⟨some value, true, submitted⟩ =
      ⟨⟨some (numberToString ((parseInt value).sub (.int 1))), true,
        submitted ++ [numberToString ((parseInt value).sub (.int 1))]⟩, none⟩ := by
  unfold decreaseCartQuantity
  simp only
  rw [JSNum.gt_one_of_toInt _ v hv, if_pos (by simpa using h1)]
  rfl

theorem decreaseCartQuantity_floor (value : JSString) (submitted : List JSString) (v : Int)
    (hv : (parseInt value).toInt? = some v) (h1 : v ≤ 1) :
    decreaseCartQuantity ⟨some value, true, submitted⟩ =
      ⟨⟨some value, true, submitted⟩, none⟩ := by
  unfold decreaseCartQuantity
  simp only
  rw [JSNum.gt_one_of_toInt _ v hv, if_neg (by simpa using h1)]

theorem add_one_text (value : JSString) (v : Int) (hv : (parseInt value).toInt? = some v)
    (h : (v + 1).natAbs ≤ 2 ^ 53) :
    numberToString ((parseInt value).add (.int 1)) = decimalInt (v + 1) := by
  rw [JSNum.add_one_of_toInt _ v hv h, numberToString_int _ h]

theorem sub_one_text (value : JSString) (v : Int) (hv : (parseInt value).toInt? = some v)
    (h1 : 1 < v) (h : (v - 1).natAbs ≤ 2 ^ 53) :
    numberToString ((parseInt value).sub (.int 1)) = decimalInt (v - 1) := by
  rw [JSNum.int_of_toInt _ v hv (by omega), JSNum.sub_one_exact v h, numberToString_int _ h]

/-- A click on a row that holds an integer that is at least 1 leaves such a
row, and whatever it submits is such an integer. -/
theorem cart_click_keeps_floor (row : CartRow) (click : CartClick)
    (h : ∃ value v, row.input = some value ∧ row.hasForm = true ∧
      parseInt value = .int v ∧ 1 ≤ v) :
    (∃ value v, (click.apply row).input = some value ∧ (click.apply row).hasForm = true ∧
      parseInt value = .int v ∧ 1 ≤ v) ∧
    ∃ sent, (click.apply row).submitted = row.submitted ++ sent ∧
      ∀ s ∈ sent, ∃ w, parseInt s = .int w ∧ 1 ≤ w := by
  obtain ⟨value, v, hin, hform, hv, h1⟩ := h
  rcases row with ⟨input, hasForm, submitted⟩
  simp only at hin hform
  subst hin hform
  have htoInt : (parseInt value).toInt? = some v := by rw [hv]; rfl
  cases click with
  | increase =>
    obtain ⟨w, hw, hw1⟩ := add_one_reads value v hv h1
    have e : CartClick.increase.apply ⟨some value, true, submitted⟩ = _ :=
      congrArg RowOutcome.row (increaseCartQuantity_submits value submitted)
    rw [e]
    exact ⟨⟨_, w, rfl, rfl, hw, hw1⟩, [_], rfl,
      fun s hs => ⟨w, by rw [List.mem_singleton.1 hs]; exact hw, hw1⟩⟩
  | decrease =>
    by_cases hgt : 1 < v
    · obtain ⟨w, hw, hw1⟩ := sub_one_reads value v hv hgt
      have e : CartClick.decrease.apply ⟨some value, true, submitted⟩ = _ :=
        congrArg RowOutcome.row (decreaseCartQuantity_submits value submitted v htoInt hgt)
      rw [e]
      exact ⟨⟨_, w, rfl, rfl, hw, hw1⟩, [_], rfl,
        fun s hs => ⟨w, by rw [List.mem_singleton.1 hs]; exact hw, hw1⟩⟩
    · have e : CartClick.decrease.apply ⟨some value, true, submitted⟩ = _ :=
        congrArg RowOutcome.row
          (decreaseCartQuantity_floor value submitted v htoInt (by omega))
      rw [e]
      exact ⟨⟨value, v, rfl, rfl, hv, h1⟩, [], by simp, by simp⟩

theorem cart_clicks_keep_floor (clicks : List CartClick) :
    ∀ row : CartRow,
      (∃ value v, row.input = some value ∧ row.hasForm = true ∧
        parseInt value = .int v ∧ 1 ≤ v) →
      ∃ sent, (clicks.foldl CartClick.apply row).submitted = row.submitted ++ sent ∧
        ∀ s ∈ sent, ∃ w, parseInt s = .int w ∧ 1 ≤ w := by
  induction clicks with
  | nil => intro row _; exact ⟨[], by simp, by simp⟩
  | cons c cs ih =>
    intro row h
    rw [List.foldl_cons]
    obtain ⟨hfloor, sent1, hs1, hall1⟩ := cart_click_keeps_floor row c h
    obtain ⟨sent2, hs2, hall2⟩ := ih _ hfloor
    refine ⟨sent1 ++ sent2, ?_, ?_⟩
    · rw [hs2, hs1, List.append_assoc]
    · intro s hs
      rcases List.mem_append.1 hs with hs | hs
      · exact hall1 s hs
      · exact hall2 s hs

/-- C7, as amended: for a cart row whose quantity input holds the integer `v`
(zero written `-0` included) and has an enclosing form, for every `v`:
`increaseCartQuantity` writes a new value and submits the form exactly once,
with that value, and the value is `v + 1` when `-2 ^ 53 ≤ v < 2 ^ 53`;
`decreaseCartQuantity`, when `v > 1`, writes a new value and submits the form
exactly once, with that value, and the value is `v - 1` when `v ≤ 2 ^ 53`;
when `v ≤ 1` it leaves the row as it is and submits nothing. A row that starts
with any `v ≥ 1` is never submitted with a quantity below 1, whatever the
sequence of clicks. -/
theorem cart_quantity_submit (value : JSString) (submitted : List JSString) (v : Int)
    (hv : (parseInt value).toInt? = some v) :
    (∃ written,
      increaseCartQuantity ⟨some value, true, submitted⟩ =
        ⟨⟨some written, true, submitted ++ [written]⟩, none⟩ ∧
      (-(2 ^ 53) ≤ v → v < 2 ^ 53 →
        written = decimalInt (v + 1) ∧ (parseInt written).toInt? = some (v + 1))) ∧
    (1 < v → ∃ written,
      decreaseCartQuantity ⟨some value, true, submitted⟩ =
        ⟨⟨some written, true, submitted ++ [written]⟩, none⟩ ∧
      (v ≤ 2 ^ 53 →
        written = decimalInt (v - 1) ∧ (parseInt written).toInt? = some (v - 1))) ∧
    (v ≤ 1 →
      decreaseCartQuantity ⟨some value, true, submitted⟩ =
        ⟨⟨some value, true, submitted⟩, none⟩) ∧
    (1 ≤ v → ∀ clicks : List CartClick, ∃ sent,
      (clicks.foldl CartClick.apply ⟨some value, true, submitted⟩).submitted
        = submitted ++ sent ∧
      ∀ s ∈ sent, ∃ w, (parseInt s).toInt? = some w ∧ 1 ≤ w) := by
  refine ⟨?_, ?_, ?_, ?_⟩
  · refine ⟨_, increaseCartQuantity_submits value submitted, ?_⟩
    intro hlo hhi
    have htext := add_one_text value v hv (by omega)
    exact ⟨htext, by rw [htext]; exact toInt_decimalInt _ (by omega)⟩
  · intro h1
    refine ⟨_, decreaseCartQuantity_submits value submitted v hv h1, ?_⟩
    intro hmax
    have htext := sub_one_text value v hv h1 (by omega)
    exact ⟨htext, by rw [htext]; exact toInt_decimalInt _ (by omega)⟩
  · intro h1
    exact decreaseCartQuantity_floor value submitted v hv h1
  · intro h1 clicks
    have hint : parseInt value = .int v := JSNum.int_of_toInt _ v hv (by omega)
    obtain ⟨sent, hsent, hall⟩ := cart_clicks_keep_floor clicks ⟨some value, true, submitted⟩
      ⟨value, v, rfl, rfl, hint, h1⟩
    refine ⟨sent, hsent, ?_⟩
    intro s hs
    obtain ⟨w, hw, hw1⟩ := hall s hs
    exact ⟨w, by rw [hw]; rfl, hw1⟩

/-- C7, as amended, on a row that holds `2`, where an increase submits `3`
and a decrease submits `1`; on a row that holds `1` and on one that holds
`-0`, where a decrease submits nothing; and on a row that holds `-0`, where an
increase submits `1`. -/
theorem cart_quantity_submit_witness :
    (parseInt (utf16 "2")).toInt? = some 2 ∧
    (parseInt (utf16 "-0")).toInt? = some 0 ∧
    (∃ written, increaseCartQuantity ⟨some (utf16 "2"), true, []⟩
        = ⟨⟨some written, true, [] ++ [written]⟩, none⟩ ∧
      written = utf16 "3") ∧
    (∃ written, decreaseCartQuantity ⟨some (utf16 "2"), true, []⟩
        = ⟨⟨some written, true, [] ++ [written]⟩, none⟩ ∧
      written = utf16 "1") ∧
    decreaseCartQuantity ⟨some (utf16 "1"), true, []⟩
      = ⟨⟨some (utf16 "1"), true, []⟩, none⟩ ∧
    decreaseCartQuantity ⟨some (utf16 "-0"), true, []⟩
      = ⟨⟨some (utf16 "-0"), true, []⟩, none⟩ ∧
    (∃ written, increaseCartQuantity ⟨some (utf16 "-0"), true, []⟩
        = ⟨⟨some written, true, [] ++ [written]⟩, none⟩ ∧
      written = utf16 "1") :=
  have h2 := cart_quantity_submit (utf16 "2") [] 2 (by decide)
  have h1 := cart_quantity_submit (utf16 "1") [] 1 (by decide)
  have h0 := cart_quantity_submit (utf16 "-0") [] 0 (by decide)
  ⟨by decide, by decide,
   h2.1.imp (fun _ h => ⟨h.1, (h.2 (by decide) (by decide)).1⟩),
   (h2.2.1 (by decide)).imp (fun _ h => ⟨h.1, (h.2 (by decide)).1⟩),
   h1.2.2.1 (by decide),
   h0.2.2.1 (by decide),
   h0.1.imp (fun _ h => ⟨h.1, (h.2 (by decide) (by decide)).1⟩)⟩

/-- C7 as stated fails: on a row that holds `2 ^ 53`, `increaseCartQuantity`
leaves `9007199254740992` in the input, not `2 ^ 53 + 1`, and still submits
the form, with the quantity it did not adjust; on a row that holds
`2 ^ 53 + 2`, `decreaseCartQuantity` submits `9007199254740992`, not
`2 ^ 53 + 1`. -/
theorem cart_quantity_counterexample :
    parseInt (utf16 "9007199254740992") = .int (2 ^ 53) ∧
    increaseCartQuantity ⟨some (utf16 "9007199254740992"), true, []⟩
      = ⟨⟨some (utf16 "9007199254740992"), true, [utf16 "9007199254740992"]⟩, none⟩ ∧
    utf16 "9007199254740992" ≠ decimalInt (2 ^ 53 + 1) ∧
    parseInt (utf16 "9007199254740994") = .int (2 ^ 53 + 2) ∧
    decreaseCartQuantity ⟨some (utf16 "9007199254740994"), true, []⟩
      = ⟨⟨some (utf16 "9007199254740992"), true, [utf16 "9007199254740992"]⟩, none⟩ := by
  refine ⟨by decide, by decide, by decide, by decide, by decide⟩

/-! ## Add to cart -/

theorem showMessage_of_main (message type : JSString) (p : Page) (cs : List Node)
    (hmain : p.main = some cs) :
    showMessage message type p =
      ⟨{ p with
          main := some (⟨p.nextId, utf16 "message message-" ++ type, message⟩ :: cs)
          timers := p.timers ++ [⟨p.now + 3000, p.nextId⟩]
          nextId := p.nextId + 1 }, none⟩ := by
  unfold showMessage
  simp only [hmain]

/-- C3, as amended: on a page with a `.main` element, when the add-to-cart
request resolves with `success` true, exactly one notice, of class
`message message-success`, is put in front of the children of `.main`, and the
counter is the one `updateCartCount` leaves; with a `.cart-count` element whose
text parses to the integer `k`, `-2 ^ 53 ≤ k < 2 ^ 53`, the counter text
becomes the decimal text of `k + 1`. When the request resolves with `success`
false, exactly one notice, of class `message message-error`, is put in front
and the counter is unchanged, whatever it shows. Neither raises an
exception. -/
theorem addToCart_resolved (p : Page) (cs : List Node) (hmain : p.main = some cs) :
    addToCartSettle (.resolved ⟨true⟩) p =
      ⟨{ p with
          main := some (⟨p.nextId, utf16 "message message-success",
                         utf16 "Product added to cart!"⟩ :: cs)
          cartCount := (updateCartCount p).cartCount
          timers := p.timers ++ [⟨p.now + 3000, p.nextId⟩]
          nextId := p.nextId + 1 }, none⟩ ∧
    (∀ (text : JSString) (k : Int), p.cartCount = some text →
      (parseInt text).toInt? = some k → -(2 ^ 53) ≤ k → k < 2 ^ 53 →
      (addToCartSettle (.resolved ⟨true⟩) p).page.cartCount = some (decimalInt (k + 1))) ∧
    addToCartSettle (.resolved ⟨false⟩) p =
      ⟨{ p with
          main := some (⟨p.nextId, utf16 "message message-error",
                         utf16 "Please sign in to add items to cart"⟩ :: cs)
          timers := p.timers ++ [⟨p.now + 3000, p.nextId⟩]
          nextId := p.nextId + 1 }, none⟩ := by
  have htrue : addToCartSettle (.resolved ⟨true⟩) p =
      ⟨{ p with
          main := some (⟨p.nextId, utf16 "message message-success",
                         utf16 "Product added to cart!"⟩ :: cs)
          cartCount := (updateCartCount p).cartCount
          timers := p.timers ++ [⟨p.now + 3000, p.nextId⟩]
          nextId := p.nextId + 1 }, none⟩ := by
    unfold addToCartSettle addToCartThen
    simp only [if_true]
    rw [showMessage_of_main _ _ p cs hmain]
    rcases p with ⟨main, cartCount, timers, now, nextId, console⟩
    cases cartCount <;> rfl
  refine ⟨htrue, ?_, ?_⟩
  · intro text k hcount hk hlo hhi
    rw [htrue]
    simp only
    rw [updateCartCount_exact p text k hcount hk hlo hhi]
  · unfold addToCartSettle addToCartThen
    simp only [Bool.false_eq_true, if_false]
    rw [showMessage_of_main _ _ p cs hmain]
    rfl

/-- C3, as amended, on a page with an empty `.main` and a counter that shows
`2`, and for `success` false also on a page whose counter shows
`9007199254740992`. -/
theorem addToCart_resolved_witness :
    addToCartSettle (.resolved ⟨true⟩) ⟨some [], some (utf16 "2"), [], 0, 0, []⟩ =
      ⟨⟨some [⟨0, utf16 "message message-success", utf16 "Product added to cart!"⟩],
        some (utf16 "3"), [⟨3000, 0⟩], 0, 1, []⟩, none⟩ ∧
    (addToCartSettle (.resolved ⟨true⟩) ⟨some [], some (utf16 "2"), [], 0, 0, []⟩).page.cartCount
      = some (utf16 "3") ∧
    addToCartSettle (.resolved ⟨false⟩) ⟨some [], some (utf16 "2"), [], 0, 0, []⟩ =
      ⟨⟨some [⟨0, utf16 "message message-error", utf16 "Please sign in to add items to cart"⟩],
        some (utf16 "2"), [⟨3000, 0⟩], 0, 1, []⟩, none⟩ ∧
    addToCartSettle (.resolved ⟨false⟩)
        ⟨some [], some (utf16 "9007199254740992"), [], 0, 0, []⟩ =
      ⟨⟨some [⟨0, utf16 "message message-error", utf16 "Please sign in to add items to cart"⟩],
        some (utf16 "9007199254740992"), [⟨3000, 0⟩], 0, 1, []⟩, none⟩ :=
  have h := addToCart_resolved ⟨some [], some (utf16 "2"), [], 0, 0, []⟩ [] rfl
  have hbig := addToCart_resolved ⟨some [], some (utf16 "9007199254740992"), [], 0, 0, []⟩ [] rfl
  ⟨h.1, h.2.1 (utf16 "2") 2 rfl (by decide) (by decide) (by decide), h.2.2, hbig.2.2⟩

/-- C3 as stated fails: with a counter text `9007199254740992`, which parses
to the integer `2 ^ 53`, a response with `success` true shows the success
notice and leaves the counter text as it was, not at `2 ^ 53 + 1`. -/
theorem addToCart_counterexample :
    (parseInt (utf16 "9007199254740992")).toInt? = some (2 ^ 53) ∧
    addToCartSettle (.resolved ⟨true⟩)
        ⟨some [], some (utf16 "9007199254740992"), [], 0, 0, []⟩ =
      ⟨⟨some [⟨0, utf16 "message message-success", utf16 "Product added to cart!"⟩],
        some (utf16 "9007199254740992"), [⟨3000, 0⟩], 0, 1, []⟩, none⟩ ∧
    utf16 "9007199254740992" ≠ decimalInt (2 ^ 53 + 1) := by
  refine ⟨by decide, by decide, by decide⟩

/-! ## Transient notices -/

theorem noticeInv_showMessage (notice : Node) (tm : Timer) (htm : tm.target = notice.id)
    (message type : JSString) (q : Page) (h : NoticeInv notice tm q) :
    NoticeInv notice tm (showMessage message type q).page := by
  have hsome := h.main_some
  cases hm : q.main with
  | none => rw [hm] at hsome; simp at hsome
  | some cs =>
    rw [showMessage_of_main message type q cs hm]
    have hch : q.children = cs := by simp [Page.children, hm]
    have hne : (⟨q.now + 3000, q.nextId⟩ : Timer) ≠ tm := by
      intro heq
      have := h.id_lt
      rw [← htm, ← heq] at this
      simp at this
    constructor
    · rfl
    · exact Nat.lt_succ_of_lt h.id_lt
    · intro x hx
      simp only [Page.children, Option.getD_some, List.mem_cons] at hx
      rcases hx with rfl | hx
      · exact Nat.lt_succ_self _
      · exact Nat.lt_succ_of_lt (h.ids_lt x (hch ▸ hx))
    · intro x hx hid
      simp only [Page.children, Option.getD_some, List.mem_cons] at hx
      rcases hx with rfl | hx
      · have := h.id_lt
        simp only at hid
        omega
      · exact h.only_node x (hch ▸ hx) hid
    · intro t ht htarget
      simp only [List.mem_append, List.mem_singleton] at ht
      rcases ht with ht | rfl
      · exact h.only_timer t ht htarget
      · have := h.id_lt
        simp only at htarget
        omega
    · simp only [List.count_append, List.count_singleton]
      have : ((⟨q.now + 3000, q.nextId⟩ : Timer) == tm) = false := by simpa using hne
      simpa [this] using h.count_le
    · intro hin
      simp only [List.mem_append, List.mem_singleton] at hin
      rcases hin with hin | heq
      · have := h.pending_present hin
        simp only [Page.children, Option.getD_some, List.mem_cons]
        exact Or.inr (hch ▸ this)
      · exact absurd heq.symm hne
    · intro hearly
      simp only [List.mem_append, List.mem_singleton]
      exact Or.inl (h.early_pending hearly)

theorem noticeInv_updateCartCount (notice : Node) (tm : Timer) (q : Page)
    (h : NoticeInv notice tm q) : NoticeInv notice tm (updateCartCount q) := by
  unfold updateCartCount
  cases q.cartCount with
  | none => exact h
  | some text =>
    exact ⟨h.main_some, h.id_lt, h.ids_lt, h.only_node, h.only_timer, h.count_le,
      h.pending_present, h.early_pending⟩

theorem noticeInv_console (notice : Node) (tm : Timer) (q : Page) (line : JSString)
    (h : NoticeInv notice tm q) :
    NoticeInv notice tm { q with console := q.console ++ [line] } :=
  ⟨h.main_some, h.id_lt, h.ids_lt, h.only_node, h.only_timer, h.count_le,
    h.pending_present, h.early_pending⟩

theorem showMessage_not_thrown (message type : JSString) (q : Page)
    (h : q.main.isSome = true) : (showMessage message type q).thrown = none := by
  cases hm : q.main with
  | none => rw [hm] at h; simp at h
  | some cs => rw [showMessage_of_main message type q cs hm]

theorem noticeInv_settle (notice : Node) (tm : Timer) (htm : tm.target = notice.id)
    (result : FetchResult) (q : Page) (h : NoticeInv notice tm q) :
    NoticeInv notice tm (addToCartSettle result q).page := by
  cases result with
  | rejected =>
    exact noticeInv_showMessage notice tm htm _ _ _ (noticeInv_console notice tm q _ h)
  | resolved data =>
    unfold addToCartSettle
    have hthen : (addToCartThen data q).thrown = none ∧
        NoticeInv notice tm (addToCartThen data q).page := by
      unfold addToCartThen
      by_cases hs : data.success = true
      · rw [if_pos hs]
        have hnt := showMessage_not_thrown (utf16 "Product added to cart!") (utf16 "success")
          q h.main_some
        simp only [hnt]
        exact ⟨trivial, noticeInv_updateCartCount notice tm _
          (noticeInv_showMessage notice tm htm _ _ q h)⟩
      · rw [if_neg hs]
        exact ⟨showMessage_not_thrown _ _ q h.main_some,
          noticeInv_showMessage notice tm htm _ _ q h⟩
    simp only [hthen.1]
    exact hthen.2

theorem noticeInv_advance (notice : Node) (tm : Timer) (ms : Nat) (q : Page)
    (h : NoticeInv notice tm q) : NoticeInv notice tm { q with now := q.now + ms } :=
  ⟨h.main_some, h.id_lt, h.ids_lt, h.only_node, h.only_timer, h.count_le,
    h.pending_present, fun hearly => h.early_pending (by simp only at hearly; omega)⟩

theorem children_removeNotice (target : Nat) (q : Page) :
    (removeNotice target q).children = q.children.filter (fun x => x.id ≠ target) := by
  unfold removeNotice Page.children
  cases q.main <;> simp

theorem noticeInv_timeout (notice : Node) (tm : Timer) (htm : tm.target = notice.id)
    (t : Timer) (q : Page) (h : NoticeInv notice tm q) :
    NoticeInv notice tm (step q (.timeout t)) := by
  simp only [step]
  split_ifs with hen
  · obtain ⟨hin, hdue⟩ := hen
    have hch : (removeNotice t.target { q with timers := q.timers.erase t }).children
        = q.children.filter (fun x => x.id ≠ t.target) := children_removeNotice _ _
    have hmain : (removeNotice t.target { q with timers := q.timers.erase t }).main.isSome
        = true := by
      have := h.main_some
      unfold removeNotice
      cases hq : q.main with
      | none => rw [hq] at this; simp at this
      | some cs => simp [hq]
    refine ⟨hmain, h.id_lt, ?_, ?_, ?_, ?_, ?_, ?_⟩
    · intro x hx
      rw [hch] at hx
      exact h.ids_lt x (List.mem_filter.1 hx).1
    · intro x hx hid
      rw [hch] at hx
      exact h.only_node x (List.mem_filter.1 hx).1 hid
    · intro t' ht' htarget
      exact h.only_timer t' (List.mem_of_mem_erase ht') htarget
    · show (q.timers.erase t).count tm ≤ 1
      exact le_trans (List.Sublist.count_le (List.erase_sublist t q.timers) tm) h.count_le
    · intro hpend
      have hpend' : tm ∈ q.timers.erase t := hpend
      rw [hch]
      have hne : t ≠ tm := by
        rintro rfl
        have hc : (q.timers.erase t).count t = q.timers.count t - 1 :=
          List.count_erase_self t q.timers
        have hpos : 0 < (q.timers.erase t).count t := List.count_pos_iff.2 hpend'
        have := h.count_le
        omega
      have hpresent := h.pending_present (List.mem_of_mem_erase hpend')
      refine List.mem_filter.2 ⟨hpresent, ?_⟩
      have hdiff : notice.id ≠ t.target := by
        intro heq
        exact hne (h.only_timer t hin heq.symm)
      simpa using hdiff
    · intro hearly
      have hearly' : q.now < tm.due := hearly
      have hne : tm ≠ t := by
        rintro rfl
        omega
      show tm ∈ q.timers.erase t
      exact (List.mem_erase_of_ne hne).2 (h.early_pending hearly')
  · exact h

theorem noticeInv_step (notice : Node) (tm : Timer) (htm : tm.target = notice.id)
    (q : Page) (e : Event) (h : NoticeInv notice tm q) : NoticeInv notice tm (step q e) := by
  cases e with
  | showMessage message type => exact noticeInv_showMessage notice tm htm message type q h
  | settle result => exact noticeInv_settle notice tm htm result q h
  | updateCartCount => exact noticeInv_updateCartCount notice tm q h
  | advance ms => exact noticeInv_advance notice tm ms q h
  | timeout t => exact noticeInv_timeout notice tm htm t q h

theorem noticeInv_run (notice : Node) (tm : Timer) (htm : tm.target = notice.id)
    (events : List Event) :
    ∀ q : Page, NoticeInv notice tm q → NoticeInv notice tm (run q events) := by
  induction events with
  | nil => intro q h; exact h
  | cons e es ih =>
    intro q h
    exact ih _ (noticeInv_step notice tm htm q e h)

theorem noticeInv_init (message type : JSString) (p : Page) (cs : List Node)
    (hmain : p.main = some cs) (hfresh : p.fresh) :
    NoticeInv ⟨p.nextId, utf16 "message message-" ++ type, message⟩ ⟨p.now + 3000, p.nextId⟩
      (showMessage message type p).page := by
  rw [showMessage_of_main message type p cs hmain]
  have hch : p.children = cs := by simp [Page.children, hmain]
  obtain ⟨hids, htargets⟩ := hfresh
  rw [hch] at hids
  have hnot : (⟨p.now + 3000, p.nextId⟩ : Timer) ∉ p.timers := by
    intro hin
    have := htargets _ hin
    simp at this
  constructor
  · rfl
  · exact Nat.lt_succ_self _
  · intro x hx
    simp only [Page.children, Option.getD_some, List.mem_cons] at hx
    rcases hx with rfl | hx
    · exact Nat.lt_succ_self _
    · exact Nat.lt_succ_of_lt (hids x hx)
  · intro x hx hid
    simp only [Page.children, Option.getD_some, List.mem_cons] at hx
    rcases hx with rfl | hx
    · rfl
    · have := hids x hx
      simp only at hid
      omega
  · intro t ht htarget
    simp only [List.mem_append, List.mem_singleton] at ht
    rcases ht with ht | rfl
    · have := htargets t ht
      simp only at htarget
      omega
    · rfl
  · simp only [List.count_append, List.count_singleton, beq_self_eq_true, if_true]
    rw [List.count_eq_zero_of_not_mem hnot]
  · intro _
    simp [Page.children]
  · intro _
    simp

/-- C10: on a page with a `.main` element, `showMessage message type` called
at time `p.now` puts a new element with class `message message-<type>` and the
given text in front of the children of `.main` and sets its timer for
`p.now + 3000`. Whatever happens afterwards (further notices, add-to-cart
responses, counter updates, time passing, timers running), the notice is among
the children of `.main` at every time before `p.now + 3000`, and as long as
its own timer is pending; when its timer runs, which needs the time to be at
least `p.now + 3000`, exactly this notice is removed and the other children
stay in place. A second `showMessage` puts its notice in front of the
first. -/
theorem notice_lifetime (message type : JSString) (p : Page) (cs : List Node)
    (hmain : p.main = some cs) (hfresh : p.fresh) :
    showMessage message type p =
      ⟨{ p with
          main := some (shownNotice message type p :: cs)
          timers := p.timers ++ [noticeTimer p]
          nextId := p.nextId + 1 }, none⟩ ∧
    (shownNotice message type p).className = utf16 "message message-" ++ type ∧
    (shownNotice message type p).textContent = message ∧
    (∀ events : List Event,
      (run (showMessage message type p).page events).now < p.now + 3000 →
      shownNotice message type p ∈ (run (showMessage message type p).page events).children) ∧
    (∀ events : List Event,
      noticeTimer p ∈ (run (showMessage message type p).page events).timers →
      shownNotice message type p ∈ (run (showMessage message type p).page events).children) ∧
    (∀ events : List Event,
      (step (run (showMessage message type p).page events) (.timeout (noticeTimer p))).children
        ≠ (run (showMessage message type p).page events).children →
      p.now + 3000 ≤ (run (showMessage message type p).page events).now) ∧
    (∀ events : List Event,
      noticeTimer p ∈ (run (showMessage message type p).page events).timers →
      p.now + 3000 ≤ (run (showMessage message type p).page events).now →
      (step (run (showMessage message type p).page events) (.timeout (noticeTimer p))).children
        = (run (showMessage message type p).page events).children.filter
            (fun x => x ≠ shownNotice message type p) ∧
      noticeTimer p ∉
        (step (run (showMessage message type p).page events) (.timeout (noticeTimer p))).timers) ∧
    (∀ message2 type2 : JSString,
      (showMessage message2 type2 (showMessage message type p).page).page.main =
        some (shownNotice message2 type2 (showMessage message type p).page
          :: shownNotice message type p :: cs)) := by
  have hinit := noticeInv_init message type p cs hmain hfresh
  have hrun : ∀ events : List Event,
      NoticeInv (shownNotice message type p) (noticeTimer p)
        (run (showMessage message type p).page events) :=
    fun events => noticeInv_run _ _ rfl events _ hinit
  refine ⟨showMessage_of_main message type p cs hmain, rfl, rfl, ?_, ?_, ?_, ?_, ?_⟩
  · intro events hnow
    have h := hrun events
    exact h.pending_present (h.early_pending hnow)
  · intro events hpend
    exact (hrun events).pending_present hpend
  · intro events hchanged
    by_contra hlt
    apply hchanged
    simp only [step]
    rw [if_neg]
    rintro ⟨_, hdue⟩
    exact hlt hdue
  · intro events hpend hdue
    have h := hrun events
    generalize run (showMessage message type p).page events = q at h hpend hdue
    have hstep : step q (.timeout (noticeTimer p)) =
        removeNotice (noticeTimer p).target { q with timers := q.timers.erase (noticeTimer p) } := by
      simp only [step]
      rw [if_pos ⟨hpend, hdue⟩]
    rw [hstep]
    constructor
    · rw [children_removeNotice]
      apply List.filter_congr
      intro x hx
      have hiff : x.id = (shownNotice message type p).id ↔ x = shownNotice message type p :=
        ⟨h.only_node x hx, fun e => by rw [e]⟩
      by_cases hxn : x = shownNotice message type p
      · have : (shownNotice message type p).id = (noticeTimer p).target := rfl
        simp [hxn, this]
      · have : x.id ≠ (noticeTimer p).target := fun e => hxn (hiff.1 e)
        simp [hxn, this]
    · show noticeTimer p ∉ q.timers.erase (noticeTimer p)
      intro hin
      have hc : (q.timers.erase (noticeTimer p)).count (noticeTimer p)
          = q.timers.count (noticeTimer p) - 1 := List.count_erase_self _ _
      have hpos : 0 < (q.timers.erase (noticeTimer p)).count (noticeTimer p) :=
        List.count_pos_iff.2 hin
      have := h.count_le
      omega
  · intro message2 type2
    rw [showMessage_of_main message type p cs hmain]
    rw [showMessage_of_main message2 type2 _ _ rfl]
    rfl

/-- C10 on a page with an empty `.main` at time 0: the notice is there after
2999 ms even when its timer is asked to run, and gone once the timer runs
after 3000 ms. -/
theorem notice_lifetime_witness :
    shownNotice (utf16 "Saved") (utf16 "success") ⟨some [], none, [], 0, 0, []⟩ ∈
      (run (showMessage (utf16 "Saved") (utf16 "success") ⟨some [], none, [], 0, 0, []⟩).page
        [.advance 2999, .timeout ⟨3000, 0⟩]).children ∧
    (step (run (showMessage (utf16 "Saved") (utf16 "success") ⟨some [], none, [], 0, 0, []⟩).page
        [.advance 3000]) (.timeout ⟨3000, 0⟩)).children = [] :=
  have h := notice_lifetime (utf16 "Saved") (utf16 "success") ⟨some [], none, [], 0, 0, []⟩ []
    rfl ⟨by simp [Page.children], by simp⟩
  ⟨h.2.2.2.1 [.advance 2999, .timeout ⟨3000, 0⟩] (by decide),
   (h.2.2.2.2.2.2.1 [.advance 3000] (by decide) (by decide)).1⟩


end Storefront
